import Mathlib

/-!
# Capability synchronisation of the CSI backend registry

A shallow embedding of `csi/backend/capability.go`:
`updatePoolCapabilitiesByBackend`, `updateBackendCapabilities`,
`SyncUpdateCapabilities` and `AsyncUpdateCapabilities`.

Go maps are association lists that are traversed in list order, so a statement
quantified over all lists covers every iteration order of the Go map; a Go map
never holds a key twice, which is the predicate `GoMap.WF`.  A run-time panic is
an explicit outcome that carries the state reached when the panic unwound the
call.  Backends and pools are values: the pointers of the source are taken to be
non-nil and pairwise distinct, and every pool's `Capabilities` to be an allocated
map.  Dynamic values of type `float64` and nil maps or slices are outside the
embedding.
-/

namespace CsiBackend

/-! ## Dynamic values and maps -/

/-- A dynamic Go value held in an `interface{}`: the nil interface, a `bool`, an
`int`, an `int64`, a `string`, a `[]interface{}` or a `map[string]interface{}`. -/
inductive Value where
  | null
  | bool (b : Bool)
  | int (n : Int)
  | int64 (n : Int)
  | str (s : String)
  | arr (xs : List Value)
  | obj (kvs : List (String × Value))

/-- The Go type `map[string]interface{}`, entries in iteration order. -/
abbrev GoMap := List (String × Value)

/-- The Go type `error`; the nil error is `none`. -/
abbrev GoError := String

/-- Map index with the comma-ok form, `cur, exist := m[k]`. -/
def GoMap.get : GoMap → String → Option Value
  | [], _ => none
  | (k', v) :: rest, k => if k' = k then some v else GoMap.get rest k

/-- Map assignment `m[k] = v`: replaces the entry of `k`, or adds one. -/
def GoMap.set : GoMap → String → Value → GoMap
  | [], k, v => [(k, v)]
  | (k', v') :: rest, k, v =>
    if k' = k then (k, v) :: rest else (k', v') :: GoMap.set rest k v

/-- The keys of a map, in iteration order. -/
def GoMap.keys (m : GoMap) : List String := m.map Prod.fst

/-- A Go map holds every key at most once. -/
def GoMap.WF (m : GoMap) : Prop := m.keys.Nodup

instance (m : GoMap) : Decidable m.WF :=
  inferInstanceAs (Decidable (m.keys.Nodup))

/-- Values of a comparable dynamic type (everything but slices and maps). -/
def Value.isScalar : Value → Bool
  | .arr _ => false
  | .obj _ => false
  | _ => true

/-- Go `==` on two interface values.  Values of different dynamic types are
unequal; two values of the same uncomparable dynamic type make the comparison
panic, which is `none`. -/
def Value.ifaceEq : Value → Value → Option Bool
  | .null, .null => some true
  | .bool a, .bool b => some (a == b)
  | .int a, .int b => some (a == b)
  | .int64 a, .int64 b => some (a == b)
  | .str a, .str b => some (a == b)
  | .arr _, .arr _ => none
  | .obj _, .obj _ => none
  | _, _ => some false

mutual
/-- The function `reflect.DeepEqual` on two interface values: equal dynamic types,
slices element by element, maps of equal length key by key. -/
def Value.deepEqual : Value → Value → Bool
  | .null, .null => true
  | .bool a, .bool b => a == b
  | .int a, .int b => a == b
  | .int64 a, .int64 b => a == b
  | .str a, .str b => a == b
  | .arr xs, .arr ys => Value.deepEqualList xs ys
  | .obj a, .obj b => a.length == b.length && Value.deepEqualObj a b
  | _, _ => false
/-- Element-wise `reflect.DeepEqual` of two slices. -/
def Value.deepEqualList : List Value → List Value → Bool
  | [], [] => true
  | x :: xs, y :: ys => Value.deepEqual x y && Value.deepEqualList xs ys
  | _, _ => false
/-- Every entry of the first map has a deeply equal value under the same key in
the second map. -/
def Value.deepEqualObj : List (String × Value) → List (String × Value) → Bool
  | [], _ => true
  | (k, v) :: rest, b =>
    (match GoMap.get b k with
     | some w => Value.deepEqual v w
     | none => false) && Value.deepEqualObj rest b
end

mutual
/-- No map inside the value holds a key twice. -/
def Value.wf : Value → Bool
  | .arr xs => Value.wfList xs
  | .obj kvs => decide ((kvs.map Prod.fst).Nodup) && Value.wfObj kvs
  | _ => true
/-- Every element of the slice is well formed. -/
def Value.wfList : List Value → Bool
  | [] => true
  | x :: xs => Value.wf x && Value.wfList xs
/-- Every value of the map is well formed. -/
def Value.wfObj : List (String × Value) → Bool
  | [] => true
  | (_, v) :: rest => Value.wf v && Value.wfObj rest
end

/-- The map and every map nested in its values hold each key at most once. -/
def GoMap.deepWF (m : GoMap) : Bool := Value.wf (Value.obj m)

/-- Every value of the map has a comparable dynamic type. -/
def GoMap.scalar (m : GoMap) : Bool := m.all (fun kv => kv.2.isScalar)

/-! ## Pools, backends and the log -/

/-- Modelled from the spec: the type `StoragePool` is declared outside this file;
the spec gives a pool its `Name`, its `Parent` (the backend name, for logging) and
its `Capabilities`, a mapping from capability key to value. -/
structure StoragePool where
  Name : String
  Parent : String
  Capabilities : GoMap

/-- The lines the capability merge writes to the log. -/
inductive LogEntry where
  /-- The line `Update backend capability [k] of pool ... from cur to v`. -/
  | backendCapability (k pool parent : String) (cur : Option Value) (v : Value)
  /-- The line `Pool ... of backend ... does not exist, set it unavailable`. -/
  | poolMissing (pool parent : String)
  /-- The line `Update pool capability [k] of pool ... from cur to v`. -/
  | poolCapability (k pool parent : String) (cur : Option Value) (v : Value)

/-- A log line that reports an overwritten capability. -/
def LogEntry.isChange : LogEntry → Bool
  | .poolMissing _ _ => false
  | _ => true

/-- The result of running a piece of code that may panic: the state it returned
with, or the state reached when a panic unwound it. -/
inductive Exec (σ : Type) where
  | done (s : σ)
  | panicked (s : σ)

/-- The state carried by either outcome. -/
def Exec.state {σ : Type} : Exec σ → σ
  | .done s => s
  | .panicked s => s

/-- Whether the code returned normally. -/
def Exec.isDone {σ : Type} : Exec σ → Bool
  | .done _ => true
  | .panicked _ => false

/-- Modelled from the spec: the plugin interface is declared outside this file; the
spec gives it `UpdateBackendCapabilities() -> (map, map, error)` and
`UpdatePoolCapabilities([]string) -> (map, error)`.  A plugin is held here as the
results of these two calls. -/
structure Plugin where
  UpdateBackendCapabilities : Except GoError (GoMap × GoMap)
  UpdatePoolCapabilities : List String → Except GoError GoMap

/-- Modelled from the spec: the type `Backend` is declared outside this file; the
spec gives a backend its `Name`, its `Plugin`, its ordered `Pools` and the flag
`Available`; `Storage` is the storage kind that line 43 reads. -/
structure Backend where
  Name : String
  Storage : String
  Available : Bool
  Plugin : Plugin
  Pools : List StoragePool

/-! ## The capability merge -/

/-- The loop of lines 34-40 over the backend-level capabilities for one pool. -/
def mergeBackendCapabilities (pool : StoragePool) (log : List LogEntry) :
    GoMap → Exec (StoragePool × List LogEntry)
  | [] => .done (pool, log)
  | (k, v) :: rest =>
    match pool.Capabilities.get k with
    | none =>
      mergeBackendCapabilities { pool with Capabilities := pool.Capabilities.set k v }
        (log ++ [.backendCapability k pool.Name pool.Parent none v]) rest
    | some cur =>
      match Value.ifaceEq cur v with
      | none => .panicked (pool, log)
      | some true => mergeBackendCapabilities pool log rest
      | some false =>
        mergeBackendCapabilities { pool with Capabilities := pool.Capabilities.set k v }
          (log ++ [.backendCapability k pool.Name pool.Parent (some cur) v]) rest

/-- The loop of lines 54-61 over the capabilities reported for one pool. -/
def mergePoolCapabilities (pool : StoragePool) (log : List LogEntry) :
    GoMap → StoragePool × List LogEntry
  | [] => (pool, log)
  | (k, v) :: rest =>
    match pool.Capabilities.get k with
    | none =>
      mergePoolCapabilities { pool with Capabilities := pool.Capabilities.set k v }
        (log ++ [.poolCapability k pool.Name pool.Parent none v]) rest
    | some cur =>
      if Value.deepEqual cur v then mergePoolCapabilities pool log rest
      else
        mergePoolCapabilities { pool with Capabilities := pool.Capabilities.set k v }
          (log ++ [.poolCapability k pool.Name pool.Parent (some cur) v]) rest

/-- The body of the loop over the pools, lines 34-61, for one pool. -/
def updateOnePool (storage : String) (backendCapabilities poolCapabilities : GoMap)
    (pool : StoragePool) (log : List LogEntry) : Exec (StoragePool × List LogEntry) :=
  match mergeBackendCapabilities pool log backendCapabilities with
  | .panicked s => .panicked s
  | .done (pool1, log1) =>
    if storage = "oceanstor-dtree" then .done (pool1, log1)
    else
      match poolCapabilities.get pool1.Name with
      | some (.obj capabilities) => .done (mergePoolCapabilities pool1 log1 capabilities)
      | _ =>
        .done ({ pool1 with
                 Capabilities := pool1.Capabilities.set "FreeCapacity" (.int 0) },
               log1 ++ [.poolMissing pool1.Name pool1.Parent])

/-- The loop over `backend.Pools`, line 33. -/
def updatePools (storage : String) (backendCapabilities poolCapabilities : GoMap) :
    List StoragePool → List LogEntry → Exec (List StoragePool × List LogEntry)
  | [], log => .done ([], log)
  | pool :: rest, log =>
    match updateOnePool storage backendCapabilities poolCapabilities pool log with
    | .panicked (p, l) => .panicked (p :: rest, l)
    | .done (p, l) =>
      match updatePools storage backendCapabilities poolCapabilities rest l with
      | .done (ps, l2) => .done (p :: ps, l2)
      | .panicked (ps, l2) => .panicked (p :: ps, l2)

/-- The function `updatePoolCapabilitiesByBackend`: the backend with its pools
merged, and the log lines written. -/
def updatePoolCapabilitiesByBackend (backend : Backend)
    (backendCapabilities poolCapabilities : GoMap) : Exec (Backend × List LogEntry) :=
  match updatePools backend.Storage backendCapabilities poolCapabilities backend.Pools [] with
  | .done (ps, l) => .done ({ backend with Pools := ps }, l)
  | .panicked (ps, l) => .panicked ({ backend with Pools := ps }, l)

/-- The capability maps of the pools of a backend, in pool order. -/
def Backend.capabilities (backend : Backend) : List GoMap :=
  backend.Pools.map (fun p => p.Capabilities)

/-! ## One backend's synchronisation -/

/-- Modelled from the spec: the collaborators that line 67 and line 68 call are
declared outside this file: the configured namespace, the key builder
`MakeMetaWithNamespace` and the claim-online check, which the spec gives as
`IsClaimOnline(ctx, backendIdentity) -> (bool, error)`. -/
structure Env where
  Namespace : String
  MakeMetaWithNamespace : String → String → String
  GetSBCTOnlineStatusByClaim : String → Bool × Option GoError

/-- The calls that leave the synchroniser, in the order they are issued. -/
inductive Event where
  | GetSBCTOnlineStatusByClaim (backendID : String)
  | RemoveOneBackend (name : String)
  | UpdateBackendCapabilities (backend : String)
  | UpdatePoolCapabilities (backend : String) (poolNames : List String)
deriving DecidableEq

/-- The package state around the backends: the keys of the registry `csiBackends`
(a map from backend name to backend, declared outside this file), the calls issued
so far and the log of the merges. -/
structure World where
  csiBackends : List String
  trace : List Event
  logs : List LogEntry

/-- Appends one issued call to the trace. -/
def World.record (w : World) (e : Event) : World :=
  { w with trace := w.trace ++ [e] }

/-- Modelled from the spec: `RemoveOneBackend` is declared outside this file; the
spec gives it as `RemoveBackend(ctx, name)`, the deregistration of the backend of
that name from the backend registry. -/
def RemoveOneBackend (name : String) (w : World) : World :=
  { w with csiBackends := w.csiBackends.filter (fun k => decide (k ≠ name)),
           trace := w.trace ++ [Event.RemoveOneBackend name] }

/-- How a call to `updateBackendCapabilities` ended: it returned an error value
(`none` is nil), or a panic unwound it. -/
inductive Outcome where
  | returned (err : Option GoError)
  | panicked
deriving DecidableEq

/-- The function `updateBackendCapabilities`, lines 65-99. -/
def updateBackendCapabilities (env : Env) (backend : Backend) (sync : Bool) (w : World) :
    Outcome × Backend × World :=
  let backendID := env.MakeMetaWithNamespace env.Namespace backend.Name
  let w1 := w.record (Event.GetSBCTOnlineStatusByClaim backendID)
  match env.GetSBCTOnlineStatusByClaim backendID with
  | (false, _) => (.returned none, backend, RemoveOneBackend backend.Name w1)
  | (true, _) =>
    let w2 := w1.record (Event.UpdateBackendCapabilities backend.Name)
    match backend.Plugin.UpdateBackendCapabilities with
    | .error err => (.returned (some err), backend, w2)
    | .ok (backendCapabilities, _) =>
      let poolNames := backend.Pools.map (fun pool => pool.Name)
      let w3 := w2.record (Event.UpdatePoolCapabilities backend.Name poolNames)
      match backend.Plugin.UpdatePoolCapabilities poolNames with
      | .error err => (.returned (some err), backend, w3)
      | .ok poolCapabilities =>
        if sync && decide (poolCapabilities.length < poolNames.length) then
          (.returned (some ("There're pools not available for backend " ++ backend.Name)),
            backend, w3)
        else
          match updatePoolCapabilitiesByBackend backend backendCapabilities poolCapabilities with
          | .done (b, l) => (.returned none, b, { w3 with logs := w3.logs ++ l })
          | .panicked (b, l) => (.panicked, b, { w3 with logs := w3.logs ++ l })

/-! ## The two sweeps over the registry -/

/-- The loop of `SyncUpdateCapabilities`, lines 103-110, over the backends of the
registry in traversal order.  An entry whose key was deleted before the loop
reached it is not produced by the `range`. -/
def syncLoop (env : Env) : List Backend → World → Outcome × List Backend × World
  | [], w => (.returned none, [], w)
  | backend :: rest, w =>
    if backend.Name ∈ w.csiBackends then
      match updateBackendCapabilities env backend true w with
      | (.returned none, b, w1) =>
        match syncLoop env rest w1 with
        | (r, rest1, w2) => (r, { b with Available := true } :: rest1, w2)
      | (.returned (some err), b, w1) => (.returned (some err), b :: rest, w1)
      | (.panicked, b, w1) => (.panicked, b :: rest, w1)
    else
      match syncLoop env rest w with
      | (r, rest1, w2) => (r, backend :: rest1, w2)

/-- The function `SyncUpdateCapabilities`: its result, the backends after the sweep
(same order as before it) and the package state. -/
def SyncUpdateCapabilities (env : Env) (backends : List Backend) (w : World) :
    Outcome × List Backend × World :=
  syncLoop env backends w

/-- The body of one goroutine of `AsyncUpdateCapabilities`, lines 122-141; the
deferred function recovers a panic, which leaves `Available` as it was. -/
def asyncTask (env : Env) (b : Backend) (w : World) : Backend × World :=
  match updateBackendCapabilities env b false w with
  | (.returned none, b1, w1) => ({ b1 with Available := true }, w1)
  | (.returned (some _), b1, w1) => ({ b1 with Available := false }, w1)
  | (.panicked, b1, w1) => (b1, w1)

/-- The function `AsyncUpdateCapabilities`: one task per backend, joined before it
returns.  The tasks own disjoint backends; they are run here one after the other
in the order of the list, which stands for any order of completion. -/
def AsyncUpdateCapabilities (env : Env) : List Backend → World → List Backend × World
  | [], w => ([], w)
  | backend :: rest, w =>
    match asyncTask env backend w with
    | (b, w1) =>
      match AsyncUpdateCapabilities env rest w1 with
      | (rest1, w2) => (b :: rest1, w2)

/-- The calls that one run of `updateBackendCapabilities` issues, in order. -/
def callsOf (env : Env) (backend : Backend) (sync : Bool) : List Event :=
  (updateBackendCapabilities env backend sync
    { csiBackends := [], trace := [], logs := [] }).2.2.trace

/-- How one run of `updateBackendCapabilities` ends; the package state it starts
from has no part in it (`updateBackendCapabilities_frame`). -/
def outcomeOf (env : Env) (backend : Backend) (sync : Bool) : Outcome :=
  (updateBackendCapabilities env backend sync
    { csiBackends := [], trace := [], logs := [] }).1

/-- The backend as one run of `updateBackendCapabilities` leaves it, whatever the
package state it starts from (`updateBackendCapabilities_frame`). -/
def backendAfter (env : Env) (backend : Backend) (sync : Bool) : Backend :=
  (updateBackendCapabilities env backend sync
    { csiBackends := [], trace := [], logs := [] }).2.1

/-- The backend as a successful strict sync followed by line 109 leaves it. -/
def synced (env : Env) (backend : Backend) : Backend :=
  { backendAfter env backend true with Available := true }

/-- The calls of the strict syncs of the given backends, one backend after the
other. -/
def sweepCalls (env : Env) : List Backend → List Event
  | [] => []
  | backend :: rest => callsOf env backend true ++ sweepCalls env rest

/-- The backend as its task of `AsyncUpdateCapabilities` leaves it. -/
def asyncResult (env : Env) (backend : Backend) : Backend :=
  match outcomeOf env backend false with
  | .returned none => { backendAfter env backend false with Available := true }
  | .returned (some _) => { backendAfter env backend false with Available := false }
  | .panicked => backendAfter env backend false

/-! ## The merge, key by key -/

/-- The entry of key `k` once the map `B` has been written over an entry `old`. -/
def overrideBy (B : GoMap) (old : Option Value) (k : String) : Option Value :=
  match B.get k with
  | some v => some v
  | none => old

/-- The entry of key `k` once the pool-level loop over `C` has run on an entry `y`:
the value of `C` is written unless the entry already holds a deeply equal value. -/
def poolStep (C : GoMap) (y : Option Value) (k : String) : Option Value :=
  match C.get k with
  | none => y
  | some c =>
    match y with
    | none => some c
    | some cur => if Value.deepEqual cur c then some cur else some c

/-- The entry of key `k` of the pool called `name` after one pass of the merge over
an entry `old`. -/
def mergedValue (storage : String) (B P : GoMap) (name : String) (old : Option Value)
    (k : String) : Option Value :=
  if storage = "oceanstor-dtree" then overrideBy B old k
  else
    match P.get name with
    | some (.obj C) => poolStep C (overrideBy B old k) k
    | _ => if k = "FreeCapacity" then some (.int 0) else overrideBy B old k

/-- The pool `p` is the pool `pool` after one pass of the merge: same name and
parent, and every capability entry as `mergedValue` gives it. -/
def MergedPool (storage : String) (B P : GoMap) (pool p : StoragePool) : Prop :=
  p.Name = pool.Name ∧ p.Parent = pool.Parent ∧
    ∀ k, p.Capabilities.get k = mergedValue storage B P pool.Name (pool.Capabilities.get k) k

/-- What the pool-level part of the loop body writes into the pool called `name`:
nothing for the kind `oceanstor-dtree`, the reported map of the pool when the
response has one, and `FreeCapacity` 0 otherwise. -/
def poolLevelCapabilities (storage : String) (P : GoMap) (name : String) : GoMap :=
  if storage = "oceanstor-dtree" then []
  else
    match P.get name with
    | some (.obj C) => C
    | _ => [("FreeCapacity", Value.int 0)]

/-! ## The scenarios of the specification -/

/-- A plugin whose two capability calls return the given maps. -/
def pluginReturning (B P : GoMap) : Plugin :=
  { UpdateBackendCapabilities := Except.ok (B, []),
    UpdatePoolCapabilities := fun _ => Except.ok P }

/-- The backend-level capabilities of the end-to-end scenario. -/
def scenarioBackendCapabilities : GoMap := [("Thin", Value.bool true)]

/-- The per-pool capabilities of the end-to-end scenario. -/
def scenarioPoolCapabilities : GoMap :=
  [("P1", Value.obj [("FreeCapacity", Value.int64 100)]),
   ("P2", Value.obj [("FreeCapacity", Value.int64 50)])]

/-- The backend `B1` of the end-to-end scenario, with its two empty pools. -/
def scenarioBackend : Backend :=
  { Name := "B1", Storage := "oceanstor-san", Available := false,
    Plugin := pluginReturning scenarioBackendCapabilities scenarioPoolCapabilities,
    Pools := [{ Name := "P1", Parent := "B1", Capabilities := [] },
              { Name := "P2", Parent := "B1", Capabilities := [] }] }

/-- The per-pool capabilities of the second scenario: only `P1` is reported. -/
def scenarioPartialPoolCapabilities : GoMap :=
  [("P1", Value.obj [("FreeCapacity", Value.int64 100)])]

/-- A backend of storage kind `oceanstor-dtree` whose only pool has 7 units free. -/
def dtreeBackend : Backend :=
  { Name := "B2", Storage := "oceanstor-dtree", Available := false,
    Plugin := pluginReturning [] [],
    Pools := [{ Name := "P1", Parent := "B2",
                Capabilities := [("FreeCapacity", Value.int64 7)] }] }

/-- Backend-level capabilities with a value of slice type. -/
def sliceBackendCapabilities : GoMap := [("Tags", Value.arr [])]

/-- A backend whose only pool already holds a slice under the key `Tags`. -/
def sliceBackend : Backend :=
  { Name := "B3", Storage := "oceanstor-san", Available := false,
    Plugin := pluginReturning sliceBackendCapabilities [],
    Pools := [{ Name := "P1", Parent := "B3",
                Capabilities := [("Tags", Value.arr [])] }] }

/-- An environment in which every claim is online. -/
def onlineEnv : Env :=
  { Namespace := "huawei-csi",
    MakeMetaWithNamespace := fun ns name => ns ++ "/" ++ name,
    GetSBCTOnlineStatusByClaim := fun _ => (true, none) }

/-- An environment in which every claim is offline. -/
def offlineEnv : Env :=
  { Namespace := "huawei-csi",
    MakeMetaWithNamespace := fun ns name => ns ++ "/" ++ name,
    GetSBCTOnlineStatusByClaim := fun _ => (false, none) }

/-- The package state with the given registry keys, before any call. -/
def startWorld (keys : List String) : World :=
  { csiBackends := keys, trace := [], logs := [] }

/-- The backend `B1` when its plugin reports only the pool `P1`. -/
def partialBackend : Backend :=
  { scenarioBackend with
    Plugin := pluginReturning scenarioBackendCapabilities scenarioPartialPoolCapabilities }

/-- A per-pool response with two entries, one of them for a pool `P9` that the
backend does not have; `P2` has no entry. -/
def strayPoolCapabilities : GoMap :=
  [("P1", Value.obj [("FreeCapacity", Value.int64 100)]),
   ("P9", Value.obj [("FreeCapacity", Value.int64 50)])]

/-- The backend `B1` when its plugin reports the pools `P1` and `P9`. -/
def strayBackend : Backend :=
  { scenarioBackend with
    Plugin := pluginReturning scenarioBackendCapabilities strayPoolCapabilities }

/-- Backend-level capabilities with a scalar value and a value of slice type. -/
def mixedBackendCapabilities : GoMap :=
  [("Replicas", Value.int 1), ("Tags", Value.arr [])]

/-- A per-pool response that reports another value for the key `Replicas`. -/
def mixedPoolCapabilities : GoMap :=
  [("P1", Value.obj [("Replicas", Value.int 2)])]

/-- A backend with one pool that holds no capability yet. -/
def freshBackend : Backend :=
  { Name := "B4", Storage := "oceanstor-san", Available := false,
    Plugin := pluginReturning mixedBackendCapabilities mixedPoolCapabilities,
    Pools := [{ Name := "P1", Parent := "B4", Capabilities := [] }] }

/-- The backend `freshBackend` after one pass of the merge of the mixed maps. -/
def freshBackendMerged : Backend :=
  { freshBackend with
    Pools := [{ Name := "P1", Parent := "B4",
                Capabilities := [("Replicas", Value.int 2), ("Tags", Value.arr [])] }] }

/-- Backend-level capabilities that carry a free capacity of their own. -/
def capacityBackendCapabilities : GoMap := [("FreeCapacity", Value.int64 5)]

/-- A per-pool response that reports another free capacity for `P1`. -/
def capacityPoolCapabilities : GoMap :=
  [("P1", Value.obj [("FreeCapacity", Value.int64 100)])]

/-- A backend whose only pool holds no capability yet. -/
def capacityBackend : Backend :=
  { Name := "B5", Storage := "oceanstor-san", Available := false,
    Plugin := pluginReturning capacityBackendCapabilities capacityPoolCapabilities,
    Pools := [{ Name := "P1", Parent := "B5", Capabilities := [] }] }

/-- The backend `capacityBackend` after one pass of the merge. -/
def capacityBackendMerged : Backend :=
  { capacityBackend with
    Pools := [{ Name := "P1", Parent := "B5",
                Capabilities := [("FreeCapacity", Value.int64 100)] }] }

/-- The backend `sliceBackend` with a pool that holds no capability yet. -/
def sliceFreshBackend : Backend :=
  { sliceBackend with Pools := [{ Name := "P1", Parent := "B3", Capabilities := [] }] }

/-- The backend `sliceFreshBackend` after one pass of the merge with an empty
per-pool response. -/
def sliceFreshBackendMerged : Backend :=
  { sliceBackend with
    Pools := [{ Name := "P1", Parent := "B3",
                Capabilities := [("Tags", Value.arr []), ("FreeCapacity", Value.int 0)] }] }

/-- A backend that was available and whose plugin now fails its first call. -/
def failingBackend : Backend :=
  { Name := "B6", Storage := "oceanstor-san", Available := true,
    Plugin := { UpdateBackendCapabilities := Except.error "connection refused",
                UpdatePoolCapabilities := fun _ => Except.ok [] },
    Pools := [{ Name := "P1", Parent := "B6",
                Capabilities := [("FreeCapacity", Value.int64 9)] }] }

/-- An environment whose claim-online check reports offline together with an
error. -/
def erringOfflineEnv : Env :=
  { offlineEnv with GetSBCTOnlineStatusByClaim := fun _ => (false, some "claim not found") }

/-- An environment whose claim-online check reports online together with an
error. -/
def erringOnlineEnv : Env :=
  { onlineEnv with GetSBCTOnlineStatusByClaim := fun _ => (true, some "stale cache") }

end CsiBackend

/-!
# The session client of the FusionStorage backend

A shallow embedding of `storage/fusionstorage/client/client.go`: `NewClient`,
`Login`, `setAccountId`, `Logout`, `doCall`, `baseCall`, `call` and `reLogin`.

The client and the package state are passed explicitly.  The backend is a script of
replies, one consumed by each request that reaches `cli.client.Do`; an exhausted
script answers like a refused connection.  The bytes of a response body are held as
what `json.Unmarshal` makes of them for a nil map.  Decoding into a map that an
earlier decoding filled keeps the entries of that map; there the body is taken to
be a JSON object.  A `float64` is held as its exact value
`mant * 2 ^ exp`; `encoding/json` yields no NaN and no infinity.  One goroutine runs
at a time: the mutex `reloginMutex` is not part of the state, and `call` is split at
its label `RETRY` so that the requests of two callers can be interleaved there.
-/

namespace FusionClient

/-! ## Decoded JSON -/

/-- The Go type `error`, known by its message; the nil error is `none`. -/
abbrev GoError := String

/-- A finite `float64`, held as the exact value `mant * 2 ^ exp`. -/
structure Float64 where
  mant : Int
  exp : Int
deriving DecidableEq

/-- The `float64` of a whole number. -/
def Float64.ofInt (n : Int) : Float64 := { mant := n, exp := 0 }

/-- The conversion `int64(f)`: the fraction is discarded (truncation towards zero).
Go leaves the conversion of a value outside the range of `int64` to the
implementation; here it is the truncation all the same. -/
def Float64.toInt64 (f : Float64) : Int :=
  if 0 ≤ f.exp then f.mant * 2 ^ f.exp.toNat
  else Int.tdiv f.mant (2 ^ (-f.exp).toNat)

/-- A value that `json.Unmarshal` stores in an `interface{}`. -/
inductive Json where
  | null
  | bool (b : Bool)
  | number (f : Float64)
  | string (s : String)
  | array (xs : List Json)
  | object (kvs : List (String × Json))

/-- The Go type `map[string]interface{}` of a decoded body or of request data. -/
abbrev JsonObj := List (String × Json)

/-- Map index with the comma-ok form, `v, exist := body[k]`. -/
def JsonObj.get : JsonObj → String → Option Json
  | [], _ => none
  | (k1, v) :: rest, k => if k1 = k then some v else JsonObj.get rest k

/-- Map assignment `body[k] = v`. -/
def JsonObj.set : JsonObj → String → Json → JsonObj
  | [], k, v => [(k, v)]
  | (k1, v1) :: rest, k, v =>
    if k1 = k then (k1, v) :: rest else (k1, v1) :: JsonObj.set rest k v

/-- What `json.Unmarshal` leaves in a map that is not nil when it decodes the
object `o` into it: the map is reused, its entries are kept, and each key of `o` is
stored over them with the value `o` gives it. -/
def JsonObj.unmarshalInto (body o : JsonObj) : JsonObj :=
  o.foldl (fun m kv => m.set kv.1 kv.2) body

/-- The Go type `http.Header`. -/
abbrev Header := List (String × List String)

/-- Map index `respHeader[k]`; a missing key gives the nil slice, which is `none`. -/
def Header.get : Header → String → Option (List String)
  | [], _ => none
  | (k1, v) :: rest, k => if k1 = k then some v else Header.get rest k

/-- The bytes of a response body, held as the result of `json.Unmarshal` into a
nil `map[string]interface{}`: its error, or the decoded object. -/
abbrev RawBody := Except GoError JsonObj

/-- The function `strconv.Atoi` on the characters after the sign: the value of a
non-empty run of decimal digits. -/
def digitsValue : List Char → Option Nat
  | [] => none
  | c :: rest =>
    rest.foldl
      (fun acc d =>
        match acc with
        | some n => if d.isDigit then some (n * 10 + (d.toNat - 48)) else none
        | none => none)
      (if c.isDigit then some (c.toNat - 48) else none)

/-- The function `strconv.Atoi`: an optional sign and decimal digits, within the
range of the 64-bit `int`. -/
def Atoi (s : String) : Except GoError Int :=
  let signed : Option Int :=
    match s.data with
    | '-' :: ds => (digitsValue ds).map (fun n => -(n : Int))
    | '+' :: ds => (digitsValue ds).map (fun n => (n : Int))
    | ds => (digitsValue ds).map (fun n => (n : Int))
  match signed with
  | some n =>
    if -9223372036854775808 ≤ n ∧ n ≤ 9223372036854775807 then Except.ok n
    else Except.error ("strconv.Atoi: parsing " ++ s ++ ": value out of range")
  | none => Except.error ("strconv.Atoi: parsing " ++ s ++ ": invalid syntax")

/-! ## The constants of lines 40-53 -/

/-- The constant `noAuthenticated`. -/
def noAuthenticated : Int := 10000003
/-- The constant `offLineCodeInt`. -/
def offLineCodeInt : Int := 1077949069
/-- The constant `offLineCode`. -/
def offLineCode : String := "1077949069"
/-- The constant `defaultParallelCount`. -/
def defaultParallelCount : Int := 50
/-- The constant `maxParallelCount`. -/
def maxParallelCount : Int := 1000
/-- The constant `minParallelCount`. -/
def minParallelCount : Int := 20
/-- The constant `loginFailed`. -/
def loginFailed : Int := 1077949061
/-- The constant `loginFailedWithArg`. -/
def loginFailedWithArg : Int := 1077987870
/-- The constant `userPasswordInvalid`. -/
def userPasswordInvalid : Int := 1073754390
/-- The constant `IPLock`. -/
def IPLock : Int := 1077949071

/-- The path of the login request. -/
def loginUrl : String := "/dsware/service/v1.3/sec/login"
/-- The path of the logout request. -/
def logoutUrl : String := "/dsware/service/v1.3/sec/logout"

/-! ## The client and the package state -/

/-- The value `&http.Client` that `Login` builds at lines 176-182; a client that
holds none has a nil transport. -/
structure HttpClient where
  insecureSkipVerify : Bool
  timeoutSeconds : Nat
deriving DecidableEq

/-- The literal of lines 176-182. -/
def newHttpClient : HttpClient := { insecureSkipVerify := true, timeoutSeconds := 60 }

/-- The struct `Client` of lines 77-92, without its mutex. -/
structure Client where
  url : String
  user : String
  secretNamespace : String
  secretName : String
  backendID : String
  accountName : String
  accountId : Int
  authToken : String
  client : Option HttpClient
deriving DecidableEq

/-- Modelled from the spec: the type `utils.Semaphore` is declared outside this
file; the spec gives it as a counting semaphore that allows at most `n` concurrent
permits.  A semaphore is known by the order of its allocation and its capacity. -/
structure Semaphore where
  id : Nat
  capacity : Int
deriving DecidableEq

/-- Which function called `doCall`. -/
inductive Caller where
  | call
  | baseCall
deriving DecidableEq

/-- What the client does to the world outside it, in order. -/
inductive Event where
  /-- The call `clientSemaphore.Acquire()` of line 333. -/
  | acquire (s : Semaphore)
  /-- The call `cli.client.Do(req)` of line 336, with the token the request carries
  (`""` when it carries none). -/
  | send (caller : Caller) (method url token : String)
  /-- The deferred `clientSemaphore.Release()` of line 334. -/
  | release (s : Semaphore)
  /-- An invocation of `reLogin`. -/
  | reLogin
  | GetPasswordFromBackendID (backendID : String)
  | SetStorageBackendContentOnlineStatus (backendID : String) (online : Bool)
  | GetAccountIdByName (name : String)
deriving DecidableEq

/-- What the backend makes of one request. -/
inductive Reply where
  /-- The call `cli.client.Do(req)` returns an error. -/
  | doError
  /-- Reading the response body fails with this error. -/
  | readError (err : GoError)
  /-- A response with its header and its body. -/
  | response (header : Header) (body : RawBody)

/-- The package state and the world around the clients: the package-level
`clientSemaphore`, the number of semaphores allocated so far, the replies the
backend will give and the trace of events. -/
structure Net where
  clientSemaphore : Semaphore
  allocated : Nat
  replies : List Reply
  trace : List Event

/-- Appends one event to the trace. -/
def Net.record (n : Net) (e : Event) : Net :=
  { n with trace := n.trace ++ [e] }

/-- Modelled from the spec: the collaborators that `Login`, `setAccountId` and
`doCall` call are declared outside this file.  The spec gives
`GetCredentialByBackendID(ctx, backendIdentity) -> (password, error)` and
`SetBackendOfflineStatus(ctx, backendIdentity, online bool) -> error`;
`GetAccountIdByName` resolves the account id of an account name, and
`DefaultAccountName` and `DefaultAccountId` are the default tenant.  `requestError`
is the error of `json.Marshal` or `http.NewRequest` for a request, if any, and
`Sprint` is the rendering of a body by the verb `%+v`. -/
structure Env where
  GetPasswordFromBackendID : String → Except GoError String
  SetStorageBackendContentOnlineStatus : String → Bool → Option GoError
  GetAccountIdByName : String → Except GoError String
  DefaultAccountName : String
  DefaultAccountId : Int
  requestError : String → String → Option JsonObj → Option GoError
  Sprint : JsonObj → String

/-- The outcome of running code that may panic: what it returned, or a panic. The
state reached is returned beside it. -/
inductive Run (α : Type) where
  | ret (a : α)
  | panicked

/-! ## Construction -/

/-- The parallel count that `NewClient` computes at lines 109-117. -/
def parallelCountOf (parallelNum : String) : Int :=
  if parallelNum.length > 0 then
    match Atoi parallelNum with
    | Except.error _ => defaultParallelCount
    | Except.ok parallelCount =>
      if parallelCount > maxParallelCount ∨ parallelCount < minParallelCount then
        defaultParallelCount
      else parallelCount
  else defaultParallelCount

/-- The function `NewClient`, lines 105-129.  `utils.NewSemaphore` is declared
outside this file; it is taken to allocate a fresh semaphore of the capacity it is
given. -/
def NewClient (url user secretName secretNamespace parallelNum backendID accountName : String)
    (net : Net) : Client × Net :=
  let parallelCount := parallelCountOf parallelNum
  ({ url := url, user := user, secretNamespace := secretNamespace,
     secretName := secretName, backendID := backendID, accountName := accountName,
     accountId := 0, authToken := "", client := none },
   { net with clientSemaphore := { id := net.allocated, capacity := parallelCount },
              allocated := net.allocated + 1 })

/-! ## Requests -/

/-- What `doCall` returns: an error, or the response header and the body bytes. -/
abbrev DoCallResult := Except GoError (Header × RawBody)

/-- The next reply of the backend and the script that is left. -/
def Net.nextReply (n : Net) : Reply × List Reply :=
  match n.replies with
  | [] => (Reply.doError, [])
  | r :: rest => (r, rest)

/-- The function `doCall`, lines 290-354.  The request is built, the current token
is attached when it is not empty, a permit of the package-level semaphore is
acquired, and the request is sent; sending through a nil `cli.client` panics.  The
deferred release runs on every way out after the acquire. -/
def doCall (env : Env) (caller : Caller) (cli : Client) (method url : String)
    (data : Option JsonObj) (net : Net) : Run DoCallResult × Net :=
  match env.requestError method url data with
  | some err => (Run.ret (Except.error err), net)
  | none =>
    let sem := net.clientSemaphore
    let net1 := net.record (Event.acquire sem)
    match cli.client with
    | none => (Run.panicked, net1.record (Event.release sem))
    | some _ =>
      let net2 := net1.record (Event.send caller method url cli.authToken)
      match net.nextReply with
      | (Reply.doError, rest) =>
        (Run.ret (Except.error "unconnected"),
          { net2 with replies := rest }.record (Event.release sem))
      | (Reply.readError err, rest) =>
        (Run.ret (Except.error err), { net2 with replies := rest }.record (Event.release sem))
      | (Reply.response header body, rest) =>
        (Run.ret (Except.ok (header, body)),
          { net2 with replies := rest }.record (Event.release sem))

/-- What `baseCall` and `call` return: an error, or the response header and the
decoded body. -/
abbrev CallResult := Except GoError (Header × JsonObj)

/-- The decoding of lines 363-368 into a nil map: `json.Unmarshal` and the return
of its error or of the header and the decoded body. -/
def decode (header : Header) (raw : RawBody) : CallResult :=
  match raw with
  | Except.error err => Except.error err
  | Except.ok body => Except.ok (header, body)

/-- The function `baseCall`, lines 356-369. -/
def baseCall (env : Env) (cli : Client) (method url : String) (data : Option JsonObj)
    (net : Net) : Run CallResult × Net :=
  match doCall env Caller.baseCall cli method url data net with
  | (Run.panicked, n) => (Run.panicked, n)
  | (Run.ret (Except.error err), n) => (Run.ret (Except.error err), n)
  | (Run.ret (Except.ok (header, raw)), n) => (Run.ret (decode header raw), n)

/-! ## The session -/

/-- The function `setAccountId`, lines 237-256.  `GetAccountIdByName` is a method
declared outside this file; the requests it sends are not part of the trace. -/
def setAccountId (env : Env) (cli : Client) (net : Net) : Option GoError × Client × Net :=
  if cli.accountName = "" then
    (none, { cli with accountName := env.DefaultAccountName,
                      accountId := env.DefaultAccountId }, net)
  else
    let net1 := net.record (Event.GetAccountIdByName cli.accountName)
    match env.GetAccountIdByName cli.accountName with
    | Except.error err =>
      (some ("Get account id by name: [" ++ cli.accountName ++ "] failed, error: " ++ err),
        cli, net1)
    | Except.ok accountId =>
      match Atoi accountId with
      | Except.error _ =>
        (some ("Convert account id: [" ++ accountId ++ "] to int failed"), cli, net1)
      | Except.ok id => (none, { cli with accountId := id }, net1)

/-- The test of line 211 on the error code of a failed login. -/
def isLoginLockCode (code : Int) : Bool :=
  code == loginFailed || code == loginFailedWithArg || code == userPasswordInvalid
    || code == IPLock

/-- The function `Login`, lines 174-235.  The type assertion of line 201 panics
when the body has no `result` of type `float64`. -/
def Login (env : Env) (cli : Client) (net : Net) : Run (Option GoError) × Client × Net :=
  let cli1 := { cli with client := some newHttpClient }
  let net1 := net.record (Event.GetPasswordFromBackendID cli.backendID)
  match env.GetPasswordFromBackendID cli.backendID with
  | Except.error err => (Run.ret (some err), cli1, net1)
  | Except.ok password =>
    let data : JsonObj := [("userName", Json.string cli.user), ("password", Json.string password)]
    match baseCall env cli1 "POST" loginUrl (some data) net1 with
    | (Run.panicked, n) => (Run.panicked, cli1, n)
    | (Run.ret (Except.error err), n) => (Run.ret (some err), cli1, n)
    | (Run.ret (Except.ok (respHeader, resp)), n) =>
      match resp.get "result" with
      | some (Json.number result) =>
        if result.toInt64 ≠ 0 then
          let msg := "Login " ++ cli.url ++ " error: " ++ env.Sprint resp
          match resp.get "errorCode" with
          | some (Json.number errorCode) =>
            if isLoginLockCode errorCode.toInt64 then
              let n1 := n.record (Event.SetStorageBackendContentOnlineStatus cli.backendID false)
              match env.SetStorageBackendContentOnlineStatus cli.backendID false with
              | some setErr =>
                (Run.ret (some (msg ++ "\nSetStorageBackendContentOffline [" ++ cli.backendID
                  ++ "] failed. error: " ++ setErr)), cli1, n1)
              | none => (Run.ret (some msg), cli1, n1)
            else (Run.ret (some msg), cli1, n)
          | _ => (Run.ret (some msg), cli1, n)
        else
          match respHeader.get "X-Auth-Token" with
          | some (token :: _) =>
            match setAccountId env { cli1 with authToken := token } n with
            | (some err, cli2, n1) =>
              (Run.ret (some ("setAccountId failed, error: " ++ err)), cli2, n1)
            | (none, cli2, n1) => (Run.ret none, cli2, n1)
          | _ => (Run.ret (some "get respHeader[\"X-Auth-Token\"]: [] failed."), cli1, n)
      | _ => (Run.panicked, cli1, n)

/-- The deferred function of `Logout`, lines 259-262. -/
def Client.loggedOut (cli : Client) : Client :=
  { cli with authToken := "", client := none }

/-- The function `Logout`, lines 258-281.  The deferred function runs on every way
out, the panic of the type assertion of line 274 included. -/
def Logout (env : Env) (cli : Client) (net : Net) : Run Unit × Client × Net :=
  match cli.client with
  | none => (Run.ret (), cli.loggedOut, net)
  | some _ =>
    match baseCall env cli "POST" logoutUrl none net with
    | (Run.panicked, n) => (Run.panicked, cli.loggedOut, n)
    | (Run.ret (Except.error _), n) => (Run.ret (), cli.loggedOut, n)
    | (Run.ret (Except.ok (_, resp)), n) =>
      match resp.get "result" with
      | some (Json.number _) => (Run.ret (), cli.loggedOut, n)
      | _ => (Run.panicked, cli.loggedOut, n)

/-- The part of `reLogin` under the mutex, lines 434-449, for the token `oldToken`
that line 432 read. -/
def reLoginLocked (env : Env) (oldToken : String) (cli : Client) (net : Net) :
    Run (Option GoError) × Client × Net :=
  if cli.authToken ≠ "" ∧ oldToken ≠ cli.authToken then (Run.ret none, cli, net)
  else if cli.authToken ≠ "" then
    match Logout env cli net with
    | (Run.panicked, c, n) => (Run.panicked, c, n)
    | (Run.ret _, c, n) => Login env c n
  else Login env cli net

/-- The function `reLogin`, lines 431-450, run without another goroutine between
the read of line 432 and the lock of line 434. -/
def reLogin (env : Env) (cli : Client) (net : Net) : Run (Option GoError) × Client × Net :=
  reLoginLocked env cli.authToken cli (net.record Event.reLogin)

/-- The session-expiry test of lines 392-409 on a decoded body. -/
def isSessionExpired (body : JsonObj) : Bool :=
  match body.get "errorCode" with
  | some (Json.string errorCode) => errorCode == offLineCode
  | some (Json.number errorCode) =>
    errorCode.toInt64 == offLineCodeInt || errorCode.toInt64 == noAuthenticated
  | _ => false

/-- Where the first part of `call` ends: at the label `RETRY`, or with a return.
At the label the variable `body` of line 374 is nil (`none`) when line 386 was not
reached, and otherwise the map that line 386 decoded. -/
inductive FirstStep where
  | retry (body : Option JsonObj)
  | result (r : CallResult)

/-- The function `call` up to its label `RETRY`, lines 376-410. -/
def callFirst (env : Env) (cli : Client) (method url : String) (data : Option JsonObj)
    (net : Net) : Run FirstStep × Net :=
  match doCall env Caller.call cli method url data net with
  | (Run.panicked, n) => (Run.panicked, n)
  | (Run.ret (Except.error err), n) =>
    if err = "unconnected" then (Run.ret (FirstStep.retry none), n)
    else (Run.ret (FirstStep.result (Except.error err)), n)
  | (Run.ret (Except.ok (header, raw)), n) =>
    match raw with
    | Except.error err => (Run.ret (FirstStep.result (Except.error err)), n)
    | Except.ok body =>
      if isSessionExpired body then (Run.ret (FirstStep.retry (some body)), n)
      else (Run.ret (FirstStep.result (Except.ok (header, body))), n)

/-- The decoding of lines 422-428, `json.Unmarshal(respBody, &body)` into the
variable `body` as the first part left it: a nil map takes the decoded object, and
the map that line 386 filled is reused, so that the keys of the first answer which
the second answer does not carry stay in the body that is returned.  The second
answer is taken to be a JSON object; for the body `null`, `json.Unmarshal` would
set the map to nil instead. -/
def decodeInto (body : Option JsonObj) (header : Header) (raw : RawBody) : CallResult :=
  match raw with
  | Except.error err => Except.error err
  | Except.ok o =>
    match body with
    | none => Except.ok (header, o)
    | some first => Except.ok (header, first.unmarshalInto o)

/-- The function `call` from its label `RETRY`, lines 412-428, entered with the
variable `body` of line 374. -/
def retry (env : Env) (cli : Client) (method url : String) (data : Option JsonObj)
    (body : Option JsonObj) (net : Net) : Run CallResult × Client × Net :=
  match reLogin env cli net with
  | (Run.panicked, c, n) => (Run.panicked, c, n)
  | (Run.ret (some err), c, n) => (Run.ret (Except.error err), c, n)
  | (Run.ret none, c, n) =>
    match doCall env Caller.call c method url data n with
    | (Run.panicked, n2) => (Run.panicked, c, n2)
    | (Run.ret (Except.error err), n2) => (Run.ret (Except.error err), c, n2)
    | (Run.ret (Except.ok (header, raw)), n2) =>
      (Run.ret (decodeInto body header raw), c, n2)

/-- The function `call`, lines 371-429. -/
def call (env : Env) (cli : Client) (method url : String) (data : Option JsonObj)
    (net : Net) : Run CallResult × Client × Net :=
  match callFirst env cli method url data net with
  | (Run.panicked, n) => (Run.panicked, cli, n)
  | (Run.ret (FirstStep.result r), n) => (Run.ret r, cli, n)
  | (Run.ret (FirstStep.retry body), n) => retry env cli method url data body n

/-! ## Reading the trace -/

/-- A request that `call` itself sent. -/
def Event.isCallSend : Event → Bool
  | Event.send Caller.call _ _ _ => true
  | _ => false

/-- An invocation of `reLogin`. -/
def Event.isReLogin : Event → Bool
  | Event.reLogin => true
  | _ => false

/-- A report of a claim's online status. -/
def Event.isStatusReport : Event → Bool
  | Event.SetStorageBackendContentOnlineStatus _ _ => true
  | _ => false

/-- An acquire or a release of a semaphore. -/
def Event.isPermit : Event → Bool
  | Event.acquire _ => true
  | Event.release _ => true
  | _ => false

/-! ## Scenarios -/

/-- An environment whose collaborators all succeed. -/
def demoEnv : Env :=
  { GetPasswordFromBackendID := fun _ => Except.ok "secret",
    SetStorageBackendContentOnlineStatus := fun _ _ => none,
    GetAccountIdByName := fun _ => Except.ok "7",
    DefaultAccountName := "system",
    DefaultAccountId := 0,
    requestError := fun _ _ _ => none,
    Sprint := fun _ => "" }

/-- The package state before any request, with the given script of replies. -/
def startNet (replies : List Reply) : Net :=
  { clientSemaphore := { id := 0, capacity := 50 }, allocated := 1,
    replies := replies, trace := [] }

/-- A client that is logged in with the token `T1`. -/
def demoClient : Client :=
  { url := "https://array:28443", user := "admin", secretNamespace := "huawei-csi",
    secretName := "B1", backendID := "huawei-csi/B1", accountName := "", accountId := 0,
    authToken := "T1", client := some newHttpClient }

/-- The header of a response that carries the session token `t`. -/
def tokenHeader (t : String) : Header := [("X-Auth-Token", [t])]

/-- A body that reports success. -/
def okBody : JsonObj := [("result", Json.number (Float64.ofInt 0))]

/-- A body that reports a failed login with the code `loginFailed`. -/
def lockedBody : JsonObj :=
  [("result", Json.number (Float64.ofInt 2)),
   ("errorCode", Json.number (Float64.ofInt 1077949061))]

/-- A body that reports an expired session with the numeric code. -/
def expiredBody : JsonObj :=
  [("result", Json.number (Float64.ofInt 2)),
   ("errorCode", Json.number (Float64.ofInt 1077949069))]

/-- A body whose error code is the string `10000003`. -/
def stringCodeBody : JsonObj :=
  [("result", Json.number (Float64.ofInt 2)), ("errorCode", Json.string "10000003")]

/-- A login answer whose `result` is the number 0.5, with the code `loginFailed`. -/
def fractionBody : JsonObj :=
  [("result", Json.number { mant := 1, exp := -1 }),
   ("errorCode", Json.number (Float64.ofInt 1077949061))]

/-- The replies of the backend to two callers `A` and `B` whose requests both meet
an expired session: the two first sends, then the logout, the login and the resend
of `A`, then those of `B`. -/
def herdScript : List Reply :=
  [Reply.response [] (Except.ok expiredBody),
   Reply.response [] (Except.ok expiredBody),
   Reply.response [] (Except.ok okBody),
   Reply.response (tokenHeader "T2") (Except.ok okBody),
   Reply.response [] (Except.ok okBody),
   Reply.response [] (Except.ok okBody),
   Reply.response (tokenHeader "T3") (Except.ok okBody),
   Reply.response [] (Except.ok okBody)]

/-- The first part of the call of `A`, run on the logged-in client. -/
def herdFirstA : Run FirstStep × Net :=
  callFirst demoEnv demoClient "GET" "/pools" none (startNet herdScript)

end FusionClient

namespace CsiBackend

/-! ## Maps and values -/

theorem GoMap.get_set_self (m : GoMap) (k : String) (v : Value) :
    (m.set k v).get k = some v := by
  induction m with
  | nil => simp [GoMap.set, GoMap.get]
  | cons e rest ih =>
    obtain ⟨k1, v1⟩ := e
    by_cases h : k1 = k
    · simp [GoMap.set, GoMap.get, h]
    · simp [GoMap.set, GoMap.get, h, ih]

theorem GoMap.get_set_of_ne (m : GoMap) (k k2 : String) (v : Value) (h : k ≠ k2) :
    (m.set k v).get k2 = m.get k2 := by
  induction m with
  | nil => simp [GoMap.set, GoMap.get, h]
  | cons e rest ih =>
    obtain ⟨k1, v1⟩ := e
    by_cases h1 : k1 = k
    · subst h1
      simp [GoMap.set, GoMap.get, h]
    · by_cases h2 : k1 = k2
      · subst h2
        simp [GoMap.set, GoMap.get, h1]
      · simp [GoMap.set, GoMap.get, h1, h2, ih]

theorem GoMap.get_of_mem (m : GoMap) (hm : m.WF) (k : String) (v : Value)
    (h : (k, v) ∈ m) : m.get k = some v := by
  induction m with
  | nil => cases h
  | cons e rest ih =>
    obtain ⟨k1, v1⟩ := e
    simp only [GoMap.WF, GoMap.keys, List.map_cons, List.nodup_cons] at hm
    rcases List.mem_cons.mp h with h1 | h1
    · cases h1
      simp [GoMap.get]
    · have hne : k1 ≠ k := by
        intro hk
        apply hm.1
        rw [hk]
        exact List.mem_map_of_mem Prod.fst h1
      simp only [GoMap.get, hne, if_false]
      exact ih hm.2 h1

theorem GoMap.mem_of_get (m : GoMap) (k : String) (v : Value) (h : m.get k = some v) :
    (k, v) ∈ m := by
  induction m with
  | nil => simp [GoMap.get] at h
  | cons e rest ih =>
    obtain ⟨k1, v1⟩ := e
    by_cases h1 : k1 = k
    · simp [GoMap.get, h1] at h
      simp [h1, h]
    · simp only [GoMap.get, h1, if_false] at h
      exact List.mem_cons_of_mem _ (ih h)

theorem GoMap.get_eq_none_of_not_mem_keys (m : GoMap) (k : String) (h : k ∉ m.keys) :
    m.get k = none := by
  cases hg : m.get k with
  | none => rfl
  | some v =>
    exact absurd (List.mem_map_of_mem Prod.fst (GoMap.mem_of_get m k v hg)) h

/-- On a comparable right operand, Go `==` never panics and decides equality. -/
theorem Value.ifaceEq_scalar (cur v : Value) (hv : v.isScalar = true) :
    (Value.ifaceEq cur v = some true ∧ cur = v) ∨
      (Value.ifaceEq cur v = some false ∧ cur ≠ v) := by
  cases v <;> cases cur <;> simp_all [Value.isScalar, Value.ifaceEq] <;> exact em _

theorem Value.ifaceEq_self (v : Value) (hv : v.isScalar = true) :
    Value.ifaceEq v v = some true := by
  rcases Value.ifaceEq_scalar v v hv with h | h
  · exact h.1
  · exact absurd rfl h.2

theorem Value.deepEqual_scalar (cur v : Value) (hv : v.isScalar = true) :
    Value.deepEqual cur v = true ↔ cur = v := by
  cases v <;> cases cur <;> simp_all [Value.isScalar, Value.deepEqual]

mutual
/-- On values whose maps hold no key twice, `reflect.DeepEqual` is reflexive. -/
theorem Value.deepEqual_refl : ∀ v : Value, v.wf = true → Value.deepEqual v v = true
  | .null, _ => by simp [Value.deepEqual]
  | .bool _, _ => by simp [Value.deepEqual]
  | .int _, _ => by simp [Value.deepEqual]
  | .int64 _, _ => by simp [Value.deepEqual]
  | .str _, _ => by simp [Value.deepEqual]
  | .arr xs, h => by
    simp only [Value.deepEqual]
    exact Value.deepEqualList_refl xs (by simpa [Value.wf] using h)
  | .obj kvs, h => by
    simp only [Value.wf, Bool.and_eq_true, decide_eq_true_eq] at h
    simp only [Value.deepEqual, beq_self_eq_true, Bool.true_and]
    exact Value.deepEqualObj_refl kvs kvs h.2
      (fun k v hkv => GoMap.get_of_mem kvs h.1 k v hkv)
theorem Value.deepEqualList_refl : ∀ xs : List Value, Value.wfList xs = true →
    Value.deepEqualList xs xs = true
  | [], _ => by simp [Value.deepEqualList]
  | x :: xs, h => by
    simp only [Value.wfList, Bool.and_eq_true] at h
    simp [Value.deepEqualList, Value.deepEqual_refl x h.1, Value.deepEqualList_refl xs h.2]
theorem Value.deepEqualObj_refl : ∀ (a b : List (String × Value)), Value.wfObj a = true →
    (∀ k v, (k, v) ∈ a → GoMap.get b k = some v) → Value.deepEqualObj a b = true
  | [], _, _, _ => by simp [Value.deepEqualObj]
  | (k, v) :: rest, b, h, hb => by
    simp only [Value.wfObj, Bool.and_eq_true] at h
    have h1 : GoMap.get b k = some v := hb k v (List.mem_cons_self _ _)
    have h2 := Value.deepEqualObj_refl rest b h.2
      (fun k2 v2 hkv => hb k2 v2 (List.mem_cons_of_mem _ hkv))
    simp [Value.deepEqualObj, h1, Value.deepEqual_refl v h.1, h2]
end

theorem Value.wf_of_mem_wfObj (m : List (String × Value)) (h : Value.wfObj m = true)
    (k : String) (v : Value) (hkv : (k, v) ∈ m) : v.wf = true := by
  induction m with
  | nil => cases hkv
  | cons e rest ih =>
    obtain ⟨k1, v1⟩ := e
    simp only [Value.wfObj, Bool.and_eq_true] at h
    rcases List.mem_cons.mp hkv with h1 | h1
    · cases h1
      exact h.1
    · exact ih h.2 h1

theorem GoMap.deepWF_WF (m : GoMap) (h : m.deepWF = true) : m.WF := by
  simp only [GoMap.deepWF, Value.wf, Bool.and_eq_true, decide_eq_true_eq] at h
  exact h.1

theorem GoMap.deepWF_get (m : GoMap) (h : m.deepWF = true) (k : String) (v : Value)
    (hg : m.get k = some v) : v.wf = true := by
  simp only [GoMap.deepWF, Value.wf, Bool.and_eq_true, decide_eq_true_eq] at h
  exact Value.wf_of_mem_wfObj m h.2 k v (GoMap.mem_of_get m k v hg)

theorem GoMap.deepWF_get_obj (m : GoMap) (h : m.deepWF = true) (k : String) (C : GoMap)
    (hg : m.get k = some (Value.obj C)) : C.deepWF = true :=
  GoMap.deepWF_get m h k (Value.obj C) hg

theorem GoMap.scalar_get (m : GoMap) (h : m.scalar = true) (k : String) (v : Value)
    (hg : m.get k = some v) : v.isScalar = true := by
  simp only [GoMap.scalar, List.all_eq_true] at h
  exact h (k, v) (GoMap.mem_of_get m k v hg)

/-! ## One pass of the merge, key by key -/

theorem overrideBy_cons (k0 : String) (v0 : Value) (rest : GoMap) (h : k0 ∉ GoMap.keys rest)
    (a : GoMap) (old : Option Value) (k : String) (ha : a.get k0 = some v0)
    (hab : k0 ≠ k → a.get k = old) :
    overrideBy rest (a.get k) k = overrideBy ((k0, v0) :: rest) old k := by
  by_cases hk : k0 = k
  · subst hk
    simp [overrideBy, GoMap.get, GoMap.get_eq_none_of_not_mem_keys rest k0 h, ha]
  · simp [overrideBy, GoMap.get, hk, hab hk]

/-- With comparable backend-level values the loop of lines 34-40 returns normally and
leaves under every key the value of the backend-level map, or the old entry. -/
theorem mergeBackendCapabilities_spec (B : GoMap) (hB : B.scalar = true) (hwf : B.WF) :
    ∀ (pool : StoragePool) (log : List LogEntry), ∃ p l,
      mergeBackendCapabilities pool log B = Exec.done (p, l) ∧ p.Name = pool.Name ∧
        p.Parent = pool.Parent ∧
        ∀ k, p.Capabilities.get k = overrideBy B (pool.Capabilities.get k) k := by
  induction B with
  | nil =>
    intro pool log
    exact ⟨pool, log, rfl, rfl, rfl, fun k => by simp [overrideBy, GoMap.get]⟩
  | cons e rest ih =>
    obtain ⟨k0, v0⟩ := e
    intro pool log
    simp only [GoMap.scalar, List.all_cons, Bool.and_eq_true] at hB
    simp only [GoMap.WF, GoMap.keys, List.map_cons, List.nodup_cons] at hwf
    have hrest : GoMap.scalar rest = true := hB.2
    have hwrite : ∀ l1, ∃ p l,
        mergeBackendCapabilities { pool with Capabilities := pool.Capabilities.set k0 v0 } l1 rest
          = Exec.done (p, l) ∧ p.Name = pool.Name ∧ p.Parent = pool.Parent ∧
        ∀ k, p.Capabilities.get k = overrideBy ((k0, v0) :: rest) (pool.Capabilities.get k) k := by
      intro l1
      obtain ⟨p, l, h1, h2, h3, h4⟩ :=
        ih hrest hwf.2 { pool with Capabilities := pool.Capabilities.set k0 v0 } l1
      refine ⟨p, l, h1, h2, h3, fun k => ?_⟩
      rw [h4 k]
      exact overrideBy_cons k0 v0 rest hwf.1 _ _ k (GoMap.get_set_self _ _ _)
        (fun hk => GoMap.get_set_of_ne _ _ _ _ hk)
    cases hcur : pool.Capabilities.get k0 with
    | none =>
      simp only [mergeBackendCapabilities, hcur]
      exact hwrite _
    | some cur =>
      rcases Value.ifaceEq_scalar cur v0 hB.1 with ⟨he, hv⟩ | ⟨he, _⟩
      · simp only [mergeBackendCapabilities, hcur, he]
        obtain ⟨p, l, h1, h2, h3, h4⟩ := ih hrest hwf.2 pool log
        refine ⟨p, l, h1, h2, h3, fun k => ?_⟩
        rw [h4 k]
        exact overrideBy_cons k0 v0 rest hwf.1 _ _ k (by rw [hcur, hv]) (fun _ => rfl)
      · simp only [mergeBackendCapabilities, hcur, he]
        exact hwrite _

theorem poolStep_cons (k0 : String) (c0 : Value) (rest : GoMap)
    (h : k0 ∉ GoMap.keys rest) (a b : GoMap) (k : String)
    (ha : a.get k0 = poolStep [(k0, c0)] (b.get k0) k0)
    (hab : k0 ≠ k → a.get k = b.get k) :
    poolStep rest (a.get k) k = poolStep ((k0, c0) :: rest) (b.get k) k := by
  by_cases hk : k0 = k
  · subst hk
    rw [ha]
    simp only [poolStep, GoMap.get, GoMap.get_eq_none_of_not_mem_keys rest k0 h, if_true]
  · simp [poolStep, GoMap.get, hk, hab hk]

/-- The loop of lines 54-61 leaves under every key of the reported map its value,
unless the entry already held a deeply equal one, and keeps every other entry. -/
theorem mergePoolCapabilities_spec (C : GoMap) (hwf : C.WF) :
    ∀ (pool : StoragePool) (log : List LogEntry), ∃ p l,
      mergePoolCapabilities pool log C = (p, l) ∧ p.Name = pool.Name ∧
        p.Parent = pool.Parent ∧
        ∀ k, p.Capabilities.get k = poolStep C (pool.Capabilities.get k) k := by
  induction C with
  | nil =>
    intro pool log
    exact ⟨pool, log, rfl, rfl, rfl, fun k => by simp [poolStep, GoMap.get]⟩
  | cons e rest ih =>
    obtain ⟨k0, c0⟩ := e
    intro pool log
    simp only [GoMap.WF, GoMap.keys, List.map_cons, List.nodup_cons] at hwf
    have hwrite : ∀ l1, (∀ cur, pool.Capabilities.get k0 = some cur →
          Value.deepEqual cur c0 = false) → ∃ p l,
        mergePoolCapabilities { pool with Capabilities := pool.Capabilities.set k0 c0 } l1 rest
          = (p, l) ∧ p.Name = pool.Name ∧ p.Parent = pool.Parent ∧
        ∀ k, p.Capabilities.get k = poolStep ((k0, c0) :: rest) (pool.Capabilities.get k) k := by
      intro l1 hne
      obtain ⟨p, l, h1, h2, h3, h4⟩ :=
        ih hwf.2 { pool with Capabilities := pool.Capabilities.set k0 c0 } l1
      refine ⟨p, l, h1, h2, h3, fun k => ?_⟩
      rw [h4 k]
      apply poolStep_cons k0 c0 rest hwf.1
      · rw [GoMap.get_set_self]
        cases hcur : pool.Capabilities.get k0 with
        | none => simp [poolStep, GoMap.get]
        | some cur => simp [poolStep, GoMap.get, hne cur hcur]
      · exact fun hk => GoMap.get_set_of_ne _ _ _ _ hk
    cases hcur : pool.Capabilities.get k0 with
    | none =>
      simp only [mergePoolCapabilities, hcur]
      exact hwrite _ (fun cur hc => by rw [hcur] at hc; cases hc)
    | some cur =>
      by_cases hd : Value.deepEqual cur c0 = true
      · simp only [mergePoolCapabilities, hcur, hd, if_true]
        obtain ⟨p, l, h1, h2, h3, h4⟩ := ih hwf.2 pool log
        refine ⟨p, l, h1, h2, h3, fun k => ?_⟩
        rw [h4 k]
        apply poolStep_cons k0 c0 rest hwf.1
        · simp [poolStep, GoMap.get, hcur, hd]
        · exact fun _ => rfl
      · simp only [mergePoolCapabilities, hcur, hd]
        exact hwrite _ (fun cur2 hc => by
          rw [hcur] at hc
          cases hc
          simpa using hd)

/-- With comparable backend-level values the loop body returns normally for a
pool, and the pool it leaves is the merged pool. -/
theorem updateOnePool_spec (storage : String) (B P : GoMap) (hB : B.scalar = true)
    (hwf : B.WF) (pool : StoragePool)
    (hP : ∀ C, P.get pool.Name = some (Value.obj C) → GoMap.WF C) (log : List LogEntry) :
    ∃ p l, updateOnePool storage B P pool log = Exec.done (p, l) ∧
      MergedPool storage B P pool p := by
  obtain ⟨p1, l1, h1, h2, h3, h4⟩ := mergeBackendCapabilities_spec B hB hwf pool log
  have hmiss : ∀ k, GoMap.get (GoMap.set p1.Capabilities "FreeCapacity" (Value.int 0)) k =
      if k = "FreeCapacity" then some (Value.int 0)
      else overrideBy B (pool.Capabilities.get k) k := by
    intro k
    by_cases hk : k = "FreeCapacity"
    · subst hk
      simp [GoMap.get_set_self]
    · rw [GoMap.get_set_of_ne _ _ _ _ (fun h => hk h.symm), h4 k]
      simp [hk]
  by_cases hs : storage = "oceanstor-dtree"
  · refine ⟨p1, l1, ?_, h2, h3, fun k => ?_⟩
    · simp [updateOnePool, h1, hs]
    · simp [mergedValue, hs, h4 k]
  · cases hget : P.get pool.Name with
    | none =>
      refine ⟨{ p1 with Capabilities := p1.Capabilities.set "FreeCapacity" (Value.int 0) },
        l1 ++ [LogEntry.poolMissing p1.Name p1.Parent], ?_, h2, h3, fun k => ?_⟩
      · simp only [updateOnePool, h1, hs, if_false, h2, hget]
      · simp only [mergedValue, hs, if_false, hget]
        exact hmiss k
    | some v =>
      cases v with
      | obj C =>
        obtain ⟨p2, l2, g1, g2, g3, g4⟩ :=
          mergePoolCapabilities_spec C (hP C hget) p1 l1
        refine ⟨p2, l2, ?_, g2.trans h2, g3.trans h3, fun k => ?_⟩
        · simp only [updateOnePool, h1, hs, if_false, h2, hget, g1]
        · simp only [mergedValue, hs, if_false, hget]
          rw [g4 k, h4 k]
      | null | bool _ | int _ | int64 _ | str _ | arr _ =>
        refine ⟨{ p1 with Capabilities := p1.Capabilities.set "FreeCapacity" (Value.int 0) },
          l1 ++ [LogEntry.poolMissing p1.Name p1.Parent], ?_, h2, h3, fun k => ?_⟩
        · simp only [updateOnePool, h1, hs, if_false, h2, hget]
        · simp only [mergedValue, hs, if_false, hget]
          exact hmiss k

/-- With comparable backend-level values the loop over the pools returns normally
and leaves every pool merged. -/
theorem updatePools_spec (storage : String) (B P : GoMap) (hB : B.scalar = true)
    (hwf : B.WF) (hP : ∀ name C, P.get name = some (Value.obj C) → GoMap.WF C) :
    ∀ (pools : List StoragePool) (log : List LogEntry), ∃ ps l,
      updatePools storage B P pools log = Exec.done (ps, l) ∧
        List.Forall₂ (MergedPool storage B P) pools ps := by
  intro pools
  induction pools with
  | nil =>
    intro log
    exact ⟨[], log, rfl, List.Forall₂.nil⟩
  | cons pool rest ih =>
    intro log
    obtain ⟨p, l, h1, h2⟩ :=
      updateOnePool_spec storage B P hB hwf pool (fun C h => hP pool.Name C h) log
    obtain ⟨ps, l2, g1, g2⟩ := ih l
    exact ⟨p :: ps, l2, by simp only [updatePools, h1, g1], List.Forall₂.cons h2 g2⟩

/-- With comparable backend-level values `updatePoolCapabilitiesByBackend` returns
normally; it changes nothing of the backend but its pools, which it leaves merged. -/
theorem updatePoolCapabilitiesByBackend_spec (backend : Backend) (B P : GoMap)
    (hB : B.scalar = true) (hwf : B.WF)
    (hP : ∀ name C, P.get name = some (Value.obj C) → GoMap.WF C) :
    ∃ ps l, updatePoolCapabilitiesByBackend backend B P
        = Exec.done ({ backend with Pools := ps }, l) ∧
      List.Forall₂ (MergedPool backend.Storage B P) backend.Pools ps := by
  obtain ⟨ps, l, h1, h2⟩ := updatePools_spec backend.Storage B P hB hwf hP backend.Pools []
  exact ⟨ps, l, by simp only [updatePoolCapabilitiesByBackend, h1], h2⟩

theorem forall₂_getElem? {α β : Type} (R : α → β → Prop) :
    ∀ (xs : List α) (ys : List β), List.Forall₂ R xs ys → ∀ (i : Nat) (x : α),
      xs[i]? = some x → ∃ y, ys[i]? = some y ∧ R x y := by
  intro xs ys h
  induction h with
  | nil => intro i x hx; simp at hx
  | cons hr _ ih =>
    intro i x hx
    cases i with
    | zero =>
      simp only [List.getElem?_cons_zero, Option.some.injEq] at hx
      subst hx
      exact ⟨_, by simp, hr⟩
    | succ n =>
      simp only [List.getElem?_cons_succ] at hx
      obtain ⟨y, hy, hxy⟩ := ih n x hx
      exact ⟨y, by simpa using hy, hxy⟩

/-- The loop over the pools runs the loop body on every pool, whatever happens to
the other pools, as long as the backend-level values are comparable. -/
theorem updatePools_each (storage : String) (B P : GoMap) (hB : B.scalar = true)
    (hwf : B.WF) :
    ∀ (pools : List StoragePool) (log : List LogEntry), ∃ ps l,
      updatePools storage B P pools log = Exec.done (ps, l) ∧
        List.Forall₂ (fun pool p => ∃ l0 l1,
          updateOnePool storage B P pool l0 = Exec.done (p, l1)) pools ps := by
  intro pools
  induction pools with
  | nil =>
    intro log
    exact ⟨[], log, rfl, List.Forall₂.nil⟩
  | cons pool rest ih =>
    intro log
    obtain ⟨p1, l1, h1, _⟩ := mergeBackendCapabilities_spec B hB hwf pool log
    have hone : ∃ p l, updateOnePool storage B P pool log = Exec.done (p, l) := by
      simp only [updateOnePool, h1]
      split
      · exact ⟨_, _, rfl⟩
      · split <;> exact ⟨_, _, rfl⟩
    obtain ⟨p, l, hp⟩ := hone
    obtain ⟨ps, l2, g1, g2⟩ := ih l
    exact ⟨p :: ps, l2, by simp only [updatePools, hp, g1],
      List.Forall₂.cons ⟨log, l, hp⟩ g2⟩

/-- With comparable backend-level values `updatePoolCapabilitiesByBackend` returns
normally, keeps the number of pools, and leaves at every position the pool merged. -/
theorem updatePoolCapabilitiesByBackend_pool (backend : Backend) (B P : GoMap)
    (hB : B.scalar = true) (hwf : B.WF) (i : Nat) (pool : StoragePool)
    (hi : backend.Pools[i]? = some pool)
    (hP : ∀ C, P.get pool.Name = some (Value.obj C) → GoMap.WF C) :
    ∃ b l p, updatePoolCapabilitiesByBackend backend B P = Exec.done (b, l) ∧
      b.Pools.length = backend.Pools.length ∧ b.Pools[i]? = some p ∧
      MergedPool backend.Storage B P pool p := by
  obtain ⟨ps, l, h1, h2⟩ := updatePools_each backend.Storage B P hB hwf backend.Pools []
  obtain ⟨p, hp, l0, l1, hrun⟩ := forall₂_getElem? _ _ _ h2 i pool hi
  obtain ⟨p2, l2, g1, g2⟩ := updateOnePool_spec backend.Storage B P hB hwf pool hP l0
  rw [hrun] at g1
  cases g1
  exact ⟨{ backend with Pools := ps }, l, p, by simp only [updatePoolCapabilitiesByBackend, h1],
    h2.length_eq.symm, hp, g2⟩

/-! ## The merged capabilities of a pool -/

/-- C1: for a backend whose storage kind is not `oceanstor-dtree`, backend-level
capabilities `B` with scalar values and a pool whose name maps to a capability map
`C` in the per-pool response, `updatePoolCapabilitiesByBackend` returns normally and
the pool holds the old map overridden by `B` and then by `C`: every key of `C` holds
the value of `C` (a deeply equal value, and the very value when it is a scalar),
every key of `B` not in `C` holds the value of `B`, and every other key keeps its
old entry. -/
theorem updatePoolCapabilitiesByBackend_overrides (backend : Backend) (B P : GoMap)
    (hkind : backend.Storage ≠ "oceanstor-dtree") (hB : B.scalar = true) (hBwf : B.WF)
    (i : Nat) (pool : StoragePool) (hi : backend.Pools[i]? = some pool) (C : GoMap)
    (hC : P.get pool.Name = some (Value.obj C)) (hCwf : C.deepWF = true) :
    ∃ b l p, updatePoolCapabilitiesByBackend backend B P = Exec.done (b, l) ∧
      b.Pools.length = backend.Pools.length ∧ b.Pools[i]? = some p ∧
      p.Name = pool.Name ∧
      ∀ k,
        (∀ c, C.get k = some c →
          ∃ cur, p.Capabilities.get k = some cur ∧ Value.deepEqual cur c = true ∧
            (c.isScalar = true → cur = c)) ∧
        (C.get k = none → ∀ v, B.get k = some v → p.Capabilities.get k = some v) ∧
        (C.get k = none → B.get k = none →
          p.Capabilities.get k = pool.Capabilities.get k) := by
  have hPwf : ∀ C2, P.get pool.Name = some (Value.obj C2) → GoMap.WF C2 := by
    intro C2 h
    rw [hC] at h
    cases h
    exact GoMap.deepWF_WF C hCwf
  obtain ⟨b, l, p, h1, hlen, hp, hn, _, hk⟩ :=
    updatePoolCapabilitiesByBackend_pool backend B P hB hBwf i pool hi hPwf
  refine ⟨b, l, p, h1, hlen, hp, hn, fun k => ?_⟩
  have hval : p.Capabilities.get k
      = poolStep C (overrideBy B (pool.Capabilities.get k) k) k := by
    rw [hk k]
    simp only [mergedValue, hkind, if_false, hC]
  refine ⟨fun c hc => ?_, fun hc v hv => ?_, fun hc hb => ?_⟩
  · have hrefl : Value.deepEqual c c = true :=
      Value.deepEqual_refl c (GoMap.deepWF_get C hCwf k c hc)
    rw [hval]
    simp only [poolStep, hc]
    cases overrideBy B (pool.Capabilities.get k) k with
    | none => exact ⟨c, rfl, hrefl, fun _ => rfl⟩
    | some cur =>
      by_cases hd : Value.deepEqual cur c = true
      · exact ⟨cur, by simp [hd], hd, fun hs => (Value.deepEqual_scalar cur c hs).mp hd⟩
      · exact ⟨c, by simp [hd], hrefl, fun _ => rfl⟩
  · rw [hval]
    simp [poolStep, hc, overrideBy, hv]
  · rw [hval]
    simp [poolStep, hc, overrideBy, hb]

/-- The end-to-end scenario of the specification as an instance of C1: after the
merge `P1` holds `Thin: true, FreeCapacity: 100` and `P2` holds
`Thin: true, FreeCapacity: 50`. -/
theorem updatePoolCapabilitiesByBackend_overrides_scenario :
    (∃ b l p, updatePoolCapabilitiesByBackend scenarioBackend scenarioBackendCapabilities
          scenarioPoolCapabilities = Exec.done (b, l) ∧
        b.Pools.length = scenarioBackend.Pools.length ∧ b.Pools[1]? = some p ∧
        p.Name = "P2" ∧
        ∀ k,
          (∀ c, GoMap.get [("FreeCapacity", Value.int64 50)] k = some c →
            ∃ cur, p.Capabilities.get k = some cur ∧ Value.deepEqual cur c = true ∧
              (c.isScalar = true → cur = c)) ∧
          (GoMap.get [("FreeCapacity", Value.int64 50)] k = none →
            ∀ v, scenarioBackendCapabilities.get k = some v →
              p.Capabilities.get k = some v) ∧
          (GoMap.get [("FreeCapacity", Value.int64 50)] k = none →
            scenarioBackendCapabilities.get k = none →
            p.Capabilities.get k = GoMap.get [] k)) ∧
      (updatePoolCapabilitiesByBackend scenarioBackend scenarioBackendCapabilities
          scenarioPoolCapabilities).isDone = true ∧
      (updatePoolCapabilitiesByBackend scenarioBackend scenarioBackendCapabilities
          scenarioPoolCapabilities).state.1.capabilities
        = [[("Thin", Value.bool true), ("FreeCapacity", Value.int64 100)],
           [("Thin", Value.bool true), ("FreeCapacity", Value.int64 50)]] :=
  ⟨updatePoolCapabilitiesByBackend_overrides scenarioBackend scenarioBackendCapabilities
      scenarioPoolCapabilities (by decide) (by decide) (by decide) 1
      { Name := "P2", Parent := "B1", Capabilities := [] } rfl
      [("FreeCapacity", Value.int64 50)] (by rfl) (by decide),
    rfl, rfl⟩

/-! ## A pool that the per-pool response omits -/

/-- C2, as stated, fails: in the second scenario of the specification the pool `P2`
is omitted from the response and ends with `FreeCapacity` 0, but its key `Thin`,
absent before, now holds the backend-level value; for a backend of kind
`oceanstor-dtree` the omitted pool keeps its 7 free units; and with a backend-level
value of slice type the comparison of line 35 panics before `FreeCapacity` is set. -/
theorem updatePoolCapabilitiesByBackend_missing_pool_counterexample :
    (scenarioPartialPoolCapabilities.get "P2" = none ∧
      scenarioBackend.capabilities = [[], []] ∧
      updatePoolCapabilitiesByBackend scenarioBackend scenarioBackendCapabilities
          scenarioPartialPoolCapabilities
        = Exec.done
            ({ scenarioBackend with
               Pools := [{ Name := "P1", Parent := "B1",
                           Capabilities := [("Thin", Value.bool true),
                                            ("FreeCapacity", Value.int64 100)] },
                         { Name := "P2", Parent := "B1",
                           Capabilities := [("Thin", Value.bool true),
                                            ("FreeCapacity", Value.int 0)] }] },
             [LogEntry.backendCapability "Thin" "P1" "B1" none (Value.bool true),
              LogEntry.poolCapability "FreeCapacity" "P1" "B1" none (Value.int64 100),
              LogEntry.backendCapability "Thin" "P2" "B1" none (Value.bool true),
              LogEntry.poolMissing "P2" "B1"])) ∧
    (GoMap.get [] "P1" = none ∧
      updatePoolCapabilitiesByBackend dtreeBackend [] [] = Exec.done (dtreeBackend, [])) ∧
    (GoMap.get [] "P1" = none ∧
      updatePoolCapabilitiesByBackend sliceBackend sliceBackendCapabilities []
        = Exec.panicked (sliceBackend, [])) :=
  ⟨⟨rfl, rfl, rfl⟩, ⟨rfl, rfl⟩, ⟨rfl, rfl⟩⟩

/-- C2, amended: for a backend whose storage kind is not `oceanstor-dtree` and
backend-level capabilities `B` with scalar values, a pool whose name the per-pool
response omits has `FreeCapacity` equal to the `int` 0 after the merge; every other
key holds the value of `B` when `B` has the key, and otherwise exactly the entry (or
absence) it had before. -/
theorem updatePoolCapabilitiesByBackend_missing_pool (backend : Backend) (B P : GoMap)
    (hkind : backend.Storage ≠ "oceanstor-dtree") (hB : B.scalar = true) (hBwf : B.WF)
    (i : Nat) (pool : StoragePool) (hi : backend.Pools[i]? = some pool)
    (hmiss : P.get pool.Name = none) :
    ∃ b l p, updatePoolCapabilitiesByBackend backend B P = Exec.done (b, l) ∧
      b.Pools.length = backend.Pools.length ∧ b.Pools[i]? = some p ∧
      p.Name = pool.Name ∧
      p.Capabilities.get "FreeCapacity" = some (Value.int 0) ∧
      ∀ k, k ≠ "FreeCapacity" →
        (∀ v, B.get k = some v → p.Capabilities.get k = some v) ∧
        (B.get k = none → p.Capabilities.get k = pool.Capabilities.get k) := by
  have hPwf : ∀ C, P.get pool.Name = some (Value.obj C) → GoMap.WF C := by
    intro C h
    rw [hmiss] at h
    cases h
  obtain ⟨b, l, p, h1, hlen, hp, hn, _, hk⟩ :=
    updatePoolCapabilitiesByBackend_pool backend B P hB hBwf i pool hi hPwf
  have hval : ∀ k, p.Capabilities.get k
      = if k = "FreeCapacity" then some (Value.int 0)
        else overrideBy B (pool.Capabilities.get k) k := by
    intro k
    rw [hk k]
    simp only [mergedValue, hkind, if_false, hmiss]
  refine ⟨b, l, p, h1, hlen, hp, hn, ?_, fun k hne => ⟨fun v hv => ?_, fun hb => ?_⟩⟩
  · rw [hval]
    simp
  · rw [hval]
    simp [hne, overrideBy, hv]
  · rw [hval]
    simp [hne, overrideBy, hb]

/-- The second scenario of the specification as an instance of amended C2: `P2` is
omitted and ends with `FreeCapacity` 0. -/
theorem updatePoolCapabilitiesByBackend_missing_pool_scenario :
    ∃ b l p, updatePoolCapabilitiesByBackend scenarioBackend scenarioBackendCapabilities
        scenarioPartialPoolCapabilities = Exec.done (b, l) ∧
      b.Pools.length = scenarioBackend.Pools.length ∧ b.Pools[1]? = some p ∧
      p.Name = "P2" ∧
      p.Capabilities.get "FreeCapacity" = some (Value.int 0) ∧
      ∀ k, k ≠ "FreeCapacity" →
        (∀ v, scenarioBackendCapabilities.get k = some v →
          p.Capabilities.get k = some v) ∧
        (scenarioBackendCapabilities.get k = none →
          p.Capabilities.get k = GoMap.get [] k) :=
  updatePoolCapabilitiesByBackend_missing_pool scenarioBackend scenarioBackendCapabilities
    scenarioPartialPoolCapabilities (by decide) (by decide) (by decide) 1
    { Name := "P2", Parent := "B1", Capabilities := [] } rfl rfl

/-! ## One backend's synchronisation -/

theorem GoMap.not_mem_keys_of_get_eq_none (m : GoMap) (k : String) (h : m.get k = none) :
    k ∉ m.keys := by
  induction m with
  | nil => simp [GoMap.keys]
  | cons e rest ih =>
    obtain ⟨k1, v1⟩ := e
    by_cases h1 : k1 = k
    · simp [GoMap.get, h1] at h
    · simp only [GoMap.get, h1, if_false] at h
      simp only [GoMap.keys, List.map_cons, List.mem_cons, not_or]
      exact ⟨fun hk => h1 hk.symm, ih h⟩

/-- A list without repetitions whose elements all lie in a second list, which has
an element outside the first, is strictly shorter than the second. -/
theorem length_lt_of_nodup_subset_missing (ks names : List String) (hk : ks.Nodup)
    (hsub : ∀ k ∈ ks, k ∈ names) (x : String) (hx : x ∈ names) (hxk : x ∉ ks) :
    ks.length < names.length := by
  have h1 : ks.toFinset.card = ks.length := List.toFinset_card_of_nodup hk
  have h2 : names.toFinset.card ≤ names.length := List.toFinset_card_le names
  have h3 : ks.toFinset ⊂ names.toFinset := by
    refine Finset.ssubset_iff_subset_ne.mpr ⟨fun a ha => ?_, fun heq => ?_⟩
    · exact List.mem_toFinset.mpr (hsub a (List.mem_toFinset.mp ha))
    · apply hxk
      have : x ∈ names.toFinset := List.mem_toFinset.mpr hx
      rw [← heq] at this
      exact List.mem_toFinset.mp this
  have h4 := Finset.card_lt_card h3
  omega

/-- C3: for an online backend whose two plugin calls succeed, a strict sync whose
per-pool response has fewer entries than the backend has pools returns a non-nil
error and leaves the backend as it was: its pool list and every pool's capabilities
are unchanged, and so are the registry keys and the merge log. -/
theorem updateBackendCapabilities_strict_short_count (env : Env) (backend : Backend)
    (w : World) (B cap P : GoMap)
    (honline : (env.GetSBCTOnlineStatusByClaim
      (env.MakeMetaWithNamespace env.Namespace backend.Name)).1 = true)
    (hB : backend.Plugin.UpdateBackendCapabilities = Except.ok (B, cap))
    (hP : backend.Plugin.UpdatePoolCapabilities (backend.Pools.map (fun pool => pool.Name))
      = Except.ok P)
    (hshort : P.length < backend.Pools.length) :
    ∃ err w1, updateBackendCapabilities env backend true w
        = (Outcome.returned (some err), backend, w1) ∧
      w1.csiBackends = w.csiBackends ∧ w1.logs = w.logs := by
  cases hon : env.GetSBCTOnlineStatusByClaim
      (env.MakeMetaWithNamespace env.Namespace backend.Name) with
  | mk online e =>
    rw [hon] at honline
    simp only at honline
    subst honline
    refine ⟨"There're pools not available for backend " ++ backend.Name,
      ((w.record (Event.GetSBCTOnlineStatusByClaim
          (env.MakeMetaWithNamespace env.Namespace backend.Name))).record
        (Event.UpdateBackendCapabilities backend.Name)).record
        (Event.UpdatePoolCapabilities backend.Name
          (backend.Pools.map (fun pool => pool.Name))), ?_, ?_, ?_⟩
    · simp only [updateBackendCapabilities, hon, hB, hP, List.length_map, hshort,
        decide_True, Bool.and_self, if_true]
    · rfl
    · rfl

/-- The strict sync of `B1` when only `P1` is reported, as an instance of C3. -/
theorem updateBackendCapabilities_strict_short_count_scenario :
    ∃ err w1, updateBackendCapabilities onlineEnv partialBackend true (startWorld ["B1"])
        = (Outcome.returned (some err), partialBackend, w1) ∧
      w1.csiBackends = (startWorld ["B1"]).csiBackends ∧
      w1.logs = (startWorld ["B1"]).logs :=
  updateBackendCapabilities_strict_short_count onlineEnv partialBackend (startWorld ["B1"])
    scenarioBackendCapabilities [] scenarioPartialPoolCapabilities rfl rfl rfl (by decide)

/-- C4, as stated, fails: the response for `B1` has no entry for the pool `P2` but
two entries in all, as many as the backend has pools, so the strict sync returns nil
and merges, setting `FreeCapacity` of `P2` to 0. -/
theorem updateBackendCapabilities_strict_missing_counterexample :
    strayPoolCapabilities.get "P2" = none ∧
      (updateBackendCapabilities onlineEnv strayBackend true (startWorld ["B1"])).1
        = Outcome.returned none ∧
      (updateBackendCapabilities onlineEnv strayBackend true
          (startWorld ["B1"])).2.1.capabilities
        = [[("Thin", Value.bool true), ("FreeCapacity", Value.int64 100)],
           [("Thin", Value.bool true), ("FreeCapacity", Value.int 0)]] ∧
      strayBackend.capabilities = [[], []] :=
  ⟨rfl, rfl, rfl, rfl⟩

/-- C4, amended: for a strict sync of an online backend whose plugin calls succeed,
if at least one of the backend's pool names has no entry in the returned per-pool
map and every entry of that map is keyed by the name of a pool of the backend, the
sync returns a non-nil error and merges nothing. -/
theorem updateBackendCapabilities_strict_missing (env : Env) (backend : Backend)
    (w : World) (B cap P : GoMap)
    (honline : (env.GetSBCTOnlineStatusByClaim
      (env.MakeMetaWithNamespace env.Namespace backend.Name)).1 = true)
    (hB : backend.Plugin.UpdateBackendCapabilities = Except.ok (B, cap))
    (hP : backend.Plugin.UpdatePoolCapabilities (backend.Pools.map (fun pool => pool.Name))
      = Except.ok P)
    (hwf : P.WF)
    (hkeys : ∀ k ∈ P.keys, ∃ pool ∈ backend.Pools, pool.Name = k)
    (hmiss : ∃ pool ∈ backend.Pools, P.get pool.Name = none) :
    ∃ err w1, updateBackendCapabilities env backend true w
        = (Outcome.returned (some err), backend, w1) ∧
      w1.csiBackends = w.csiBackends ∧ w1.logs = w.logs := by
  obtain ⟨pool, hpool, hnone⟩ := hmiss
  have hlen : P.length < backend.Pools.length := by
    have h := length_lt_of_nodup_subset_missing P.keys
      (backend.Pools.map (fun pool => pool.Name)) hwf
      (fun k hk => by
        obtain ⟨q, hq, hqk⟩ := hkeys k hk
        exact List.mem_map.mpr ⟨q, hq, hqk⟩)
      pool.Name (List.mem_map.mpr ⟨pool, hpool, rfl⟩)
      (GoMap.not_mem_keys_of_get_eq_none P pool.Name hnone)
    simpa [GoMap.keys] using h
  cases hon : env.GetSBCTOnlineStatusByClaim
      (env.MakeMetaWithNamespace env.Namespace backend.Name) with
  | mk online e =>
    rw [hon] at honline
    simp only at honline
    subst honline
    refine ⟨"There're pools not available for backend " ++ backend.Name,
      ((w.record (Event.GetSBCTOnlineStatusByClaim
          (env.MakeMetaWithNamespace env.Namespace backend.Name))).record
        (Event.UpdateBackendCapabilities backend.Name)).record
        (Event.UpdatePoolCapabilities backend.Name
          (backend.Pools.map (fun pool => pool.Name))), ?_, ?_, ?_⟩
    · simp only [updateBackendCapabilities, hon, hB, hP, List.length_map, hlen,
        decide_True, Bool.and_self, if_true]
    · rfl
    · rfl

/-- The strict sync of `B1` when only `P1` is reported, as an instance of amended
C4. -/
theorem updateBackendCapabilities_strict_missing_scenario :
    ∃ err w1, updateBackendCapabilities onlineEnv partialBackend true (startWorld [])
        = (Outcome.returned (some err), partialBackend, w1) ∧
      w1.csiBackends = (startWorld []).csiBackends ∧ w1.logs = (startWorld []).logs :=
  updateBackendCapabilities_strict_missing onlineEnv partialBackend (startWorld [])
    scenarioBackendCapabilities [] scenarioPartialPoolCapabilities rfl rfl rfl (by decide)
    (by decide)
    ⟨{ Name := "P2", Parent := "B1", Capabilities := [] },
      List.mem_cons_of_mem _ (List.mem_cons_self _ _), rfl⟩

/-- C5: in both modes, when the claim-online check reports false,
`updateBackendCapabilities` returns nil, leaves the backend and its pools as they
were, and issues exactly two calls, the online check and `RemoveOneBackend` with the
backend's name (so neither plugin call); the backend's name is no longer a key of
the registry and every other key is kept. -/
theorem updateBackendCapabilities_offline (env : Env) (backend : Backend) (sync : Bool)
    (w : World)
    (hoff : (env.GetSBCTOnlineStatusByClaim
      (env.MakeMetaWithNamespace env.Namespace backend.Name)).1 = false) :
    ∃ w1, updateBackendCapabilities env backend sync w
        = (Outcome.returned none, backend, w1) ∧
      w1.trace = w.trace ++
        [Event.GetSBCTOnlineStatusByClaim
            (env.MakeMetaWithNamespace env.Namespace backend.Name),
          Event.RemoveOneBackend backend.Name] ∧
      backend.Name ∉ w1.csiBackends ∧
      (∀ name, name ≠ backend.Name → (name ∈ w1.csiBackends ↔ name ∈ w.csiBackends)) ∧
      w1.logs = w.logs := by
  cases hon : env.GetSBCTOnlineStatusByClaim
      (env.MakeMetaWithNamespace env.Namespace backend.Name) with
  | mk online e =>
    rw [hon] at hoff
    simp only at hoff
    subst hoff
    refine ⟨RemoveOneBackend backend.Name (w.record (Event.GetSBCTOnlineStatusByClaim
      (env.MakeMetaWithNamespace env.Namespace backend.Name))), ?_, ?_, ?_, ?_, ?_⟩
    · simp only [updateBackendCapabilities, hon]
    · simp [RemoveOneBackend, World.record]
    · simp [RemoveOneBackend, World.record]
    · intro name hne
      simp [RemoveOneBackend, World.record, hne]
    · rfl

/-- The non-strict sync of `B1` while its claim is offline, as an instance of C5. -/
theorem updateBackendCapabilities_offline_scenario :
    ∃ w1, updateBackendCapabilities offlineEnv scenarioBackend false (startWorld ["B1", "B2"])
        = (Outcome.returned none, scenarioBackend, w1) ∧
      w1.trace = (startWorld ["B1", "B2"]).trace ++
        [Event.GetSBCTOnlineStatusByClaim
            (offlineEnv.MakeMetaWithNamespace offlineEnv.Namespace scenarioBackend.Name),
          Event.RemoveOneBackend scenarioBackend.Name] ∧
      scenarioBackend.Name ∉ w1.csiBackends ∧
      (∀ name, name ≠ scenarioBackend.Name →
        (name ∈ w1.csiBackends ↔ name ∈ (startWorld ["B1", "B2"]).csiBackends)) ∧
      w1.logs = (startWorld ["B1", "B2"]).logs :=
  updateBackendCapabilities_offline offlineEnv scenarioBackend false
    (startWorld ["B1", "B2"]) rfl

/-! ## Merging the same maps twice -/

theorem overrideBy_idem (B : GoMap) (old : Option Value) (k : String) :
    overrideBy B (overrideBy B old k) k = overrideBy B old k := by
  unfold overrideBy
  cases B.get k <;> rfl

theorem poolStep_idem (C : GoMap) (y : Option Value) (k : String) :
    poolStep C (poolStep C y k) k = poolStep C y k := by
  unfold poolStep
  cases hc : C.get k with
  | none => rfl
  | some c =>
    cases y with
    | none =>
      by_cases hd : Value.deepEqual c c = true <;> simp [hd]
    | some cur =>
      by_cases hd : Value.deepEqual cur c = true
      · simp [hd]
      · by_cases hd2 : Value.deepEqual c c = true <;> simp [hd, hd2]

theorem poolStep_overrideBy (B C : GoMap) (x y : Option Value) (k : String) (b : Value)
    (hb : B.get k = some b) :
    poolStep C (overrideBy B x k) k = poolStep C (overrideBy B y k) k := by
  simp [overrideBy, hb]

/-- One pass of the merge, key by key, is idempotent. -/
theorem mergedValue_idem (storage : String) (B P : GoMap) (name : String)
    (old : Option Value) (k : String) :
    mergedValue storage B P name (mergedValue storage B P name old k) k
      = mergedValue storage B P name old k := by
  have hstep : ∀ C, poolStep C (overrideBy B (poolStep C (overrideBy B old k) k) k) k
      = poolStep C (overrideBy B old k) k := by
    intro C
    cases hb : B.get k with
    | none => simp [overrideBy, hb, poolStep_idem]
    | some b => exact poolStep_overrideBy B C _ _ k b hb
  have hmiss : (if k = "FreeCapacity" then some (Value.int 0)
      else overrideBy B
        (if k = "FreeCapacity" then some (Value.int 0) else overrideBy B old k) k)
      = if k = "FreeCapacity" then some (Value.int 0) else overrideBy B old k := by
    by_cases hk : k = "FreeCapacity"
    · simp [hk]
    · simp [hk, overrideBy_idem]
  unfold mergedValue
  by_cases hs : storage = "oceanstor-dtree"
  · simp [hs, overrideBy_idem]
  · simp only [hs, if_false]
    cases hget : P.get name with
    | none => exact hmiss
    | some v =>
      cases v with
      | obj C => exact hstep C
      | null | bool _ | int _ | int64 _ | str _ | arr _ => exact hmiss

theorem forall₂_chain {α : Type} (R Q : α → α → Prop)
    (hq : ∀ x y z, R x y → R y z → Q y z) :
    ∀ (xs ys zs : List α), List.Forall₂ R xs ys → List.Forall₂ R ys zs →
      List.Forall₂ Q ys zs := by
  intro xs ys zs h
  induction h generalizing zs with
  | nil =>
    intro h2
    cases h2
    exact List.Forall₂.nil
  | cons hr _ ih =>
    intro h2
    cases h2 with
    | cons hr2 ht2 => exact List.Forall₂.cons (hq _ _ _ hr hr2) (ih _ ht2)

/-- C6, as stated, fails: with a backend-level value of slice type the first pass
returns normally, and the second pass overwrites `Replicas` with the backend-level
value and then panics in the comparison of line 35, so the pool is left with another
map than the first pass gave it. -/
theorem updatePoolCapabilitiesByBackend_idempotent_counterexample :
    updatePoolCapabilitiesByBackend freshBackend mixedBackendCapabilities
        mixedPoolCapabilities
      = Exec.done (freshBackendMerged,
          [LogEntry.backendCapability "Replicas" "P1" "B4" none (Value.int 1),
           LogEntry.backendCapability "Tags" "P1" "B4" none (Value.arr []),
           LogEntry.poolCapability "Replicas" "P1" "B4" (some (Value.int 1))
             (Value.int 2)]) ∧
    freshBackendMerged.capabilities
      = [[("Replicas", Value.int 2), ("Tags", Value.arr [])]] ∧
    (updatePoolCapabilitiesByBackend freshBackendMerged mixedBackendCapabilities
        mixedPoolCapabilities).isDone = false ∧
    (updatePoolCapabilitiesByBackend freshBackendMerged mixedBackendCapabilities
        mixedPoolCapabilities).state.1.capabilities
      = [[("Replicas", Value.int 1), ("Tags", Value.arr [])]] :=
  ⟨rfl, rfl, rfl, rfl⟩

/-- C6, amended: for every backend, every backend-level capability map `B` with
scalar values and every per-pool response `P`, applying
`updatePoolCapabilitiesByBackend` twice in a row returns normally both times and
leaves every pool's capability map equal, key by key, to what it was after the
first application. -/
theorem updatePoolCapabilitiesByBackend_idempotent (backend : Backend) (B P : GoMap)
    (hB : B.scalar = true) (hBwf : B.WF) (hP : P.deepWF = true) :
    ∃ b1 l1 b2 l2, updatePoolCapabilitiesByBackend backend B P = Exec.done (b1, l1) ∧
      updatePoolCapabilitiesByBackend b1 B P = Exec.done (b2, l2) ∧
      List.Forall₂ (fun p1 p2 => p2.Name = p1.Name ∧
        ∀ k, p2.Capabilities.get k = p1.Capabilities.get k) b1.Pools b2.Pools := by
  have hPwf : ∀ name C, P.get name = some (Value.obj C) → GoMap.WF C :=
    fun name C h => GoMap.deepWF_WF C (GoMap.deepWF_get_obj P hP name C h)
  obtain ⟨ps1, l1, h1, f1⟩ := updatePoolCapabilitiesByBackend_spec backend B P hB hBwf hPwf
  obtain ⟨ps2, l2, h2, f2⟩ :=
    updatePoolCapabilitiesByBackend_spec { backend with Pools := ps1 } B P hB hBwf hPwf
  refine ⟨_, l1, _, l2, h1, h2, ?_⟩
  refine forall₂_chain (MergedPool backend.Storage B P) _ ?_ backend.Pools ps1 ps2 f1 f2
  intro x y z hxy hyz
  refine ⟨hyz.1, fun k => ?_⟩
  rw [hyz.2.2 k, hxy.2.2 k, hxy.1]
  exact mergedValue_idem backend.Storage B P x.Name _ k

/-- The first scenario of the specification merged twice, as an instance of amended
C6. -/
theorem updatePoolCapabilitiesByBackend_idempotent_scenario :
    ∃ b1 l1 b2 l2, updatePoolCapabilitiesByBackend scenarioBackend
        scenarioBackendCapabilities scenarioPoolCapabilities = Exec.done (b1, l1) ∧
      updatePoolCapabilitiesByBackend b1 scenarioBackendCapabilities
        scenarioPoolCapabilities = Exec.done (b2, l2) ∧
      List.Forall₂ (fun p1 p2 => p2.Name = p1.Name ∧
        ∀ k, p2.Capabilities.get k = p1.Capabilities.get k) b1.Pools b2.Pools :=
  updatePoolCapabilitiesByBackend_idempotent scenarioBackend scenarioBackendCapabilities
    scenarioPoolCapabilities (by decide) (by decide) (by decide)

/-! ## The second pass of the same merge -/

theorem GoMap.set_eq_self (m : GoMap) (k : String) (v : Value) (h : m.get k = some v) :
    m.set k v = m := by
  induction m with
  | nil => simp [GoMap.get] at h
  | cons e rest ih =>
    obtain ⟨k1, v1⟩ := e
    by_cases h1 : k1 = k
    · simp only [GoMap.get, h1, if_true, Option.some.injEq] at h
      simp [GoMap.set, h1, h]
    · simp only [GoMap.get, h1, if_false] at h
      simp [GoMap.set, h1, ih h]

/-- When the pool already holds every backend-level value, the loop of lines 34-40
finds no test true: it writes nothing and logs nothing. -/
theorem mergeBackendCapabilities_quiet (pool : StoragePool) (log : List LogEntry) :
    ∀ (B : GoMap), B.scalar = true →
      (∀ k v, (k, v) ∈ B → pool.Capabilities.get k = some v) →
      mergeBackendCapabilities pool log B = Exec.done (pool, log) := by
  intro B
  induction B with
  | nil => intro _ _; rfl
  | cons e rest ih =>
    obtain ⟨k0, v0⟩ := e
    intro hB hall
    simp only [GoMap.scalar, List.all_cons, Bool.and_eq_true] at hB
    have hcur := hall k0 v0 (List.mem_cons_self _ _)
    simp only [mergeBackendCapabilities, hcur, Value.ifaceEq_self v0 hB.1]
    exact ih hB.2 (fun k v hkv => hall k v (List.mem_cons_of_mem _ hkv))

/-- When the pool already holds a deeply equal value under every reported key, the
loop of lines 54-61 finds no test true: it writes nothing and logs nothing. -/
theorem mergePoolCapabilities_quiet (pool : StoragePool) (log : List LogEntry) :
    ∀ (C : GoMap),
      (∀ k c, (k, c) ∈ C →
        ∃ cur, pool.Capabilities.get k = some cur ∧ Value.deepEqual cur c = true) →
      mergePoolCapabilities pool log C = (pool, log) := by
  intro C
  induction C with
  | nil => intro _; rfl
  | cons e rest ih =>
    obtain ⟨k0, c0⟩ := e
    intro hall
    obtain ⟨cur, hcur, hd⟩ := hall k0 c0 (List.mem_cons_self _ _)
    simp only [mergePoolCapabilities, hcur, hd, if_true]
    exact ih (fun k c hkc => hall k c (List.mem_cons_of_mem _ hkc))

/-- A merged pool on which the backend-level map agrees with what the pool-level
part writes is settled: the loop body run on it again finds no test true, leaves the
pool as it is and logs at most the warning for a pool missing from the response. -/
theorem updateOnePool_settled (storage : String) (B P : GoMap) (hB : B.scalar = true)
    (hBwf : B.WF) (hP : P.deepWF = true) (pool p : StoragePool)
    (hm : MergedPool storage B P pool p)
    (hagree : ∀ k b c, B.get k = some b →
      (poolLevelCapabilities storage P pool.Name).get k = some c → c = b)
    (log : List LogEntry) :
    ∃ extra, updateOnePool storage B P p log = Exec.done (p, log ++ extra) ∧
      ∀ e ∈ extra, e.isChange = false := by
  obtain ⟨hname, _, hval⟩ := hm
  have hmissing : (∀ C, P.get pool.Name ≠ some (Value.obj C)) → storage ≠ "oceanstor-dtree" →
      ∀ k, mergedValue storage B P pool.Name (pool.Capabilities.get k) k
        = if k = "FreeCapacity" then some (Value.int 0)
          else overrideBy B (pool.Capabilities.get k) k := by
    intro hno hs k
    simp only [mergedValue, hs, if_false]
  have hmisslevel : (∀ C, P.get pool.Name ≠ some (Value.obj C)) →
      storage ≠ "oceanstor-dtree" →
      poolLevelCapabilities storage P pool.Name = [("FreeCapacity", Value.int 0)] := by
    intro hno hs
    simp only [poolLevelCapabilities, hs, if_false]
  have hback : ∀ k v, (k, v) ∈ B → p.Capabilities.get k = some v := by
    intro k v hkv
    have hb : B.get k = some v := GoMap.get_of_mem B hBwf k v hkv
    rw [hval k]
    by_cases hs : storage = "oceanstor-dtree"
    · simp [mergedValue, hs, overrideBy, hb]
    · by_cases hobj : ∃ C, P.get pool.Name = some (Value.obj C)
      · obtain ⟨C, hget⟩ := hobj
        simp only [mergedValue, hs, if_false, hget, overrideBy, hb, poolStep]
        cases hc : GoMap.get C k with
        | none => rfl
        | some c =>
          have hcb : c = v := hagree k v c hb (by
            simp only [poolLevelCapabilities, hs, if_false, hget]
            exact hc)
          subst hcb
          simp
      · have hno : ∀ C, P.get pool.Name ≠ some (Value.obj C) :=
          fun C h => hobj ⟨C, h⟩
        rw [hmissing hno hs k]
        by_cases hk : k = "FreeCapacity"
        · have h0 : Value.int 0 = v := hagree k v (Value.int 0) hb (by
            rw [hmisslevel hno hs, hk]
            simp [GoMap.get])
          simp [hk, h0]
        · simp [hk, overrideBy, hb]
  have h1 := mergeBackendCapabilities_quiet p log B hB hback
  by_cases hs : storage = "oceanstor-dtree"
  · exact ⟨[], by simp [updateOnePool, h1, hs], by simp⟩
  · by_cases hobj : ∃ C, P.get pool.Name = some (Value.obj C)
    · obtain ⟨C, hget⟩ := hobj
      have hCd : GoMap.deepWF C = true := GoMap.deepWF_get_obj P hP pool.Name C hget
      have hquiet : mergePoolCapabilities p log C = (p, log) := by
        apply mergePoolCapabilities_quiet
        intro k c hkc
        have hc : GoMap.get C k = some c := GoMap.get_of_mem C (GoMap.deepWF_WF C hCd) k c hkc
        have hrefl : Value.deepEqual c c = true :=
          Value.deepEqual_refl c (GoMap.deepWF_get C hCd k c hc)
        rw [hval k]
        simp only [mergedValue, hs, if_false, hget, poolStep, hc]
        cases overrideBy B (pool.Capabilities.get k) k with
        | none => exact ⟨c, rfl, hrefl⟩
        | some cur =>
          by_cases hd : Value.deepEqual cur c = true
          · exact ⟨cur, by simp [hd], hd⟩
          · exact ⟨c, by simp [hd], hrefl⟩
      refine ⟨[], ?_, by simp⟩
      simp only [updateOnePool, h1, hs, if_false, hname, hget, hquiet, List.append_nil]
    · have hno : ∀ C, P.get pool.Name ≠ some (Value.obj C) := fun C h => hobj ⟨C, h⟩
      have hfree : p.Capabilities.get "FreeCapacity" = some (Value.int 0) := by
        rw [hval, hmissing hno hs]
        simp
      have hsame : ({ p with
          Capabilities := p.Capabilities.set "FreeCapacity" (Value.int 0) } : StoragePool)
          = p := by
        rw [GoMap.set_eq_self _ _ _ hfree]
      refine ⟨[LogEntry.poolMissing p.Name p.Parent], ?_, by simp [LogEntry.isChange]⟩
      have hno2 : ∀ C, P.get p.Name ≠ some (Value.obj C) := by
        rw [hname]
        exact hno
      simp only [updateOnePool, h1, hs, if_false]
      rw [hsame]

/-- The loop over settled pools leaves them as they are and logs no change. -/
theorem updatePools_settled (storage : String) (B P : GoMap) :
    ∀ (ps : List StoragePool),
      (∀ p ∈ ps, ∀ log, ∃ extra,
        updateOnePool storage B P p log = Exec.done (p, log ++ extra) ∧
          ∀ e ∈ extra, e.isChange = false) →
      ∀ log, ∃ extra, updatePools storage B P ps log = Exec.done (ps, log ++ extra) ∧
        ∀ e ∈ extra, e.isChange = false := by
  intro ps
  induction ps with
  | nil =>
    intro _ log
    exact ⟨[], by simp [updatePools], by simp⟩
  | cons p rest ih =>
    intro hall log
    obtain ⟨e1, h1, q1⟩ := hall p (List.mem_cons_self _ _) log
    obtain ⟨e2, h2, q2⟩ := ih (fun q hq => hall q (List.mem_cons_of_mem _ hq)) (log ++ e1)
    refine ⟨e1 ++ e2, ?_, ?_⟩
    · simp only [updatePools, h1, h2, List.append_assoc]
    · intro e he
      rcases List.mem_append.mp he with h | h
      · exact q1 e h
      · exact q2 e h

theorem forall₂_mem_right {α β : Type} (R : α → β → Prop) :
    ∀ (xs : List α) (ys : List β), List.Forall₂ R xs ys →
      ∀ y ∈ ys, ∃ x ∈ xs, R x y := by
  intro xs ys h
  induction h with
  | nil => intro y hy; cases hy
  | cons hr _ ih =>
    intro y hy
    rcases List.mem_cons.mp hy with h1 | h1
    · subst h1
      exact ⟨_, List.mem_cons_self _ _, hr⟩
    · obtain ⟨x, hx, hxy⟩ := ih y h1
      exact ⟨x, List.mem_cons_of_mem _ hx, hxy⟩

/-- C7, as stated, fails: when the backend-level map and the pool's reported map
give different values to `FreeCapacity`, the second pass finds the backend-level
test true and then the pool-level test true, overwrites twice and logs both
changes; and with a backend-level value of slice type the second pass panics in the
backend-level test. -/
theorem updatePoolCapabilitiesByBackend_second_pass_counterexample :
    (updatePoolCapabilitiesByBackend capacityBackend capacityBackendCapabilities
          capacityPoolCapabilities
        = Exec.done (capacityBackendMerged,
            [LogEntry.backendCapability "FreeCapacity" "P1" "B5" none (Value.int64 5),
             LogEntry.poolCapability "FreeCapacity" "P1" "B5" (some (Value.int64 5))
               (Value.int64 100)]) ∧
      updatePoolCapabilitiesByBackend capacityBackendMerged capacityBackendCapabilities
          capacityPoolCapabilities
        = Exec.done (capacityBackendMerged,
            [LogEntry.backendCapability "FreeCapacity" "P1" "B5" (some (Value.int64 100))
               (Value.int64 5),
             LogEntry.poolCapability "FreeCapacity" "P1" "B5" (some (Value.int64 5))
               (Value.int64 100)])) ∧
    (updatePoolCapabilitiesByBackend sliceFreshBackend sliceBackendCapabilities []
        = Exec.done (sliceFreshBackendMerged,
            [LogEntry.backendCapability "Tags" "P1" "B3" none (Value.arr []),
             LogEntry.poolMissing "P1" "B3"]) ∧
      updatePoolCapabilitiesByBackend sliceFreshBackendMerged sliceBackendCapabilities []
        = Exec.panicked (sliceFreshBackendMerged, [])) :=
  ⟨⟨rfl, rfl⟩, ⟨rfl, rfl⟩⟩

/-- C7, amended: for every backend, every backend-level capability map `B` with
scalar values and every per-pool response `P` such that, for every pool, `B` gives
each key it shares with what the pool-level part writes for that pool (the pool's
reported map, or `FreeCapacity` 0 when the response has none, or nothing for
`oceanstor-dtree`) the same value, a second application with the same `B` and `P`
finds every missing-or-changed test false: it returns the backend unchanged and logs
no change. -/
theorem updatePoolCapabilitiesByBackend_second_pass_quiet (backend : Backend)
    (B P : GoMap) (hB : B.scalar = true) (hBwf : B.WF) (hP : P.deepWF = true)
    (hagree : ∀ pool ∈ backend.Pools, ∀ k b c, B.get k = some b →
      (poolLevelCapabilities backend.Storage P pool.Name).get k = some c → c = b) :
    ∃ b1 l1 l2, updatePoolCapabilitiesByBackend backend B P = Exec.done (b1, l1) ∧
      updatePoolCapabilitiesByBackend b1 B P = Exec.done (b1, l2) ∧
      ∀ e ∈ l2, e.isChange = false := by
  have hPwf : ∀ name C, P.get name = some (Value.obj C) → GoMap.WF C :=
    fun name C h => GoMap.deepWF_WF C (GoMap.deepWF_get_obj P hP name C h)
  obtain ⟨ps1, l1, h1, f1⟩ := updatePoolCapabilitiesByBackend_spec backend B P hB hBwf hPwf
  have hsettled : ∀ p ∈ ps1, ∀ log, ∃ extra,
      updateOnePool backend.Storage B P p log = Exec.done (p, log ++ extra) ∧
        ∀ e ∈ extra, e.isChange = false := by
    intro p hp log
    obtain ⟨pool, hpool, hm⟩ := forall₂_mem_right _ _ _ f1 p hp
    exact updateOnePool_settled backend.Storage B P hB hBwf hP pool p hm
      (hagree pool hpool) log
  obtain ⟨extra, h2, hq⟩ := updatePools_settled backend.Storage B P ps1 hsettled []
  refine ⟨{ backend with Pools := ps1 }, l1, extra, h1, ?_, hq⟩
  simp only [updatePoolCapabilitiesByBackend, h2, List.nil_append]

/-- The first scenario of the specification merged twice, as an instance of amended
C7: the backend-level key `Thin` is not reported per pool. -/
theorem updatePoolCapabilitiesByBackend_second_pass_quiet_scenario :
    ∃ b1 l1 l2, updatePoolCapabilitiesByBackend scenarioBackend
        scenarioBackendCapabilities scenarioPoolCapabilities = Exec.done (b1, l1) ∧
      updatePoolCapabilitiesByBackend b1 scenarioBackendCapabilities
        scenarioPoolCapabilities = Exec.done (b1, l2) ∧
      ∀ e ∈ l2, e.isChange = false :=
  updatePoolCapabilitiesByBackend_second_pass_quiet scenarioBackend
    scenarioBackendCapabilities scenarioPoolCapabilities (by decide) (by decide)
    (by decide) (by
      intro pool hpool k b c hb hc
      simp only [scenarioBackend, List.mem_cons, List.mem_singleton, List.not_mem_nil,
        or_false] at hpool
      by_cases hk : k = "Thin"
      · subst hk
        rcases hpool with h | h <;> subst h <;>
          simp [poolLevelCapabilities, scenarioPoolCapabilities, GoMap.get] at hc
      · simp [scenarioBackendCapabilities, GoMap.get, Ne.symm hk] at hb)

/-! ## The sweeps over the registry -/

/-- The result and the backend of one run of `updateBackendCapabilities` do not
depend on the package state; the run appends its calls to the trace and removes no
registry key but, at most, the backend's own name. -/
theorem updateBackendCapabilities_frame (env : Env) (backend : Backend) (sync : Bool)
    (w : World) :
    (updateBackendCapabilities env backend sync w).1 = outcomeOf env backend sync ∧
      (updateBackendCapabilities env backend sync w).2.1 = backendAfter env backend sync ∧
      (updateBackendCapabilities env backend sync w).2.2.trace
        = w.trace ++ callsOf env backend sync ∧
      ∀ name, name ≠ backend.Name →
        (name ∈ (updateBackendCapabilities env backend sync w).2.2.csiBackends
          ↔ name ∈ w.csiBackends) := by
  cases hon : env.GetSBCTOnlineStatusByClaim
      (env.MakeMetaWithNamespace env.Namespace backend.Name) with
  | mk online e =>
    cases online with
    | false =>
      refine ⟨?_, ?_, ?_, ?_⟩
      · simp only [updateBackendCapabilities, outcomeOf, hon]
      · simp only [updateBackendCapabilities, backendAfter, hon]
      · simp [updateBackendCapabilities, callsOf, hon, RemoveOneBackend, World.record]
      · intro name hne
        simp [updateBackendCapabilities, hon, RemoveOneBackend, World.record, hne]
    | true =>
      cases hB : backend.Plugin.UpdateBackendCapabilities with
      | error err =>
        refine ⟨?_, ?_, ?_, ?_⟩
        · simp only [updateBackendCapabilities, outcomeOf, hon, hB]
        · simp only [updateBackendCapabilities, backendAfter, hon, hB]
        · simp [updateBackendCapabilities, callsOf, hon, hB, World.record]
        · intro name _
          simp [updateBackendCapabilities, hon, hB, World.record]
      | ok v =>
        obtain ⟨Bc, cap⟩ := v
        cases hP : backend.Plugin.UpdatePoolCapabilities
            (backend.Pools.map (fun pool => pool.Name)) with
        | error err =>
          refine ⟨?_, ?_, ?_, ?_⟩
          · simp only [updateBackendCapabilities, outcomeOf, hon, hB, hP]
          · simp only [updateBackendCapabilities, backendAfter, hon, hB, hP]
          · simp [updateBackendCapabilities, callsOf, hon, hB, hP, World.record]
          · intro name _
            simp [updateBackendCapabilities, hon, hB, hP, World.record]
        | ok Pc =>
          by_cases hstrict : sync = true ∧ Pc.length < backend.Pools.length
          · refine ⟨?_, ?_, ?_, ?_⟩
            · simp [updateBackendCapabilities, outcomeOf, hon, hB, hP, hstrict]
            · simp [updateBackendCapabilities, backendAfter, hon, hB, hP, hstrict]
            · simp [updateBackendCapabilities, callsOf, hon, hB, hP, hstrict, World.record]
            · intro name _
              simp [updateBackendCapabilities, hon, hB, hP, hstrict, World.record]
          · cases hm : updatePoolCapabilitiesByBackend backend Bc Pc with
            | done st =>
              obtain ⟨b1, l⟩ := st
              refine ⟨?_, ?_, ?_, ?_⟩
              · simp [updateBackendCapabilities, outcomeOf, hon, hB, hP, hstrict, hm]
              · simp [updateBackendCapabilities, backendAfter, hon, hB, hP, hstrict, hm]
              · simp [updateBackendCapabilities, callsOf, hon, hB, hP, hstrict, hm,
                  World.record]
              · intro name _
                simp [updateBackendCapabilities, hon, hB, hP, hstrict, hm, World.record]
            | panicked st =>
              obtain ⟨b1, l⟩ := st
              refine ⟨?_, ?_, ?_, ?_⟩
              · simp [updateBackendCapabilities, outcomeOf, hon, hB, hP, hstrict, hm]
              · simp [updateBackendCapabilities, backendAfter, hon, hB, hP, hstrict, hm]
              · simp [updateBackendCapabilities, callsOf, hon, hB, hP, hstrict, hm,
                  World.record]
              · intro name _
                simp [updateBackendCapabilities, hon, hB, hP, hstrict, hm, World.record]

theorem syncLoop_cons (env : Env) (backend : Backend) (rest : List Backend) (w : World)
    (hreg : backend.Name ∈ w.csiBackends) :
    syncLoop env (backend :: rest) w =
      match outcomeOf env backend true with
      | .returned none =>
        ((syncLoop env rest (updateBackendCapabilities env backend true w).2.2).1,
          synced env backend ::
            (syncLoop env rest (updateBackendCapabilities env backend true w).2.2).2.1,
          (syncLoop env rest (updateBackendCapabilities env backend true w).2.2).2.2)
      | .returned (some err) =>
        (.returned (some err), backendAfter env backend true :: rest,
          (updateBackendCapabilities env backend true w).2.2)
      | .panicked =>
        (.panicked, backendAfter env backend true :: rest,
          (updateBackendCapabilities env backend true w).2.2) := by
  obtain ⟨h1, h2, _, _⟩ := updateBackendCapabilities_frame env backend true w
  cases hr : updateBackendCapabilities env backend true w with
  | mk o st =>
    obtain ⟨b1, w1⟩ := st
    rw [hr] at h1 h2
    simp only at h1 h2
    subst h1 h2
    simp only [syncLoop, hreg, if_true, hr]
    generalize outcomeOf env backend true = o
    rcases o with (_ | e) | _ <;> rfl

/-- C8: for a registry whose backends `b1..bn` are traversed in the given order,
`SyncUpdateCapabilities` runs the strict sync on the backends in that order.  If
`bk` is the first backend whose sync returns an error, the sweep returns exactly
that error, `b1..b(k-1)` are left as their syncs left them with `Available` true,
the backends after `bk` are untouched and the calls issued are those of the syncs of
`b1..bk` and no other; if every sync returns nil the sweep returns nil and every
backend has `Available` true. -/
theorem SyncUpdateCapabilities_sweep (env : Env) (backends : List Backend) (w : World)
    (hnodup : (backends.map (fun b => b.Name)).Nodup)
    (hreg : ∀ b ∈ backends, b.Name ∈ w.csiBackends) :
    (∀ pre bk post err, backends = pre ++ bk :: post →
      (∀ b ∈ pre, outcomeOf env b true = Outcome.returned none) →
      outcomeOf env bk true = Outcome.returned (some err) →
      ∃ w1, SyncUpdateCapabilities env backends w
          = (Outcome.returned (some err),
              pre.map (synced env) ++ backendAfter env bk true :: post, w1) ∧
        (∀ b ∈ pre.map (synced env), b.Available = true) ∧
        w1.trace = w.trace ++ sweepCalls env (pre ++ [bk])) ∧
    ((∀ b ∈ backends, outcomeOf env b true = Outcome.returned none) →
      ∃ w1, SyncUpdateCapabilities env backends w
          = (Outcome.returned none, backends.map (synced env), w1) ∧
        (∀ b ∈ backends.map (synced env), b.Available = true) ∧
        w1.trace = w.trace ++ sweepCalls env backends) := by
  have havail : ∀ bs : List Backend, ∀ b ∈ bs.map (synced env), b.Available = true := by
    intro bs b hb
    obtain ⟨x, _, hx⟩ := List.mem_map.mp hb
    rw [← hx]
    rfl
  have hstep : ∀ (b : Backend) (rest : List Backend) (w0 : World),
      ((b :: rest).map (fun b => b.Name)).Nodup →
      (∀ x ∈ b :: rest, x.Name ∈ w0.csiBackends) →
      ∀ x ∈ rest, x.Name ∈ (updateBackendCapabilities env b true w0).2.2.csiBackends := by
    intro b rest w0 hnd hr x hx
    obtain ⟨_, _, _, hkeys⟩ := updateBackendCapabilities_frame env b true w0
    have hne : x.Name ≠ b.Name := by
      intro heq
      simp only [List.map_cons, List.nodup_cons] at hnd
      exact hnd.1 (heq ▸ List.mem_map_of_mem (fun b => b.Name) hx)
    exact (hkeys x.Name hne).mpr (hr x (List.mem_cons_of_mem _ hx))
  constructor
  · intro pre
    induction pre generalizing backends w with
    | nil =>
      intro bk post err hbs _ hbk
      subst hbs
      refine ⟨(updateBackendCapabilities env bk true w).2.2, ?_, havail [], ?_⟩
      · simp only [SyncUpdateCapabilities, List.nil_append, List.map_nil]
        rw [syncLoop_cons env bk post w (hreg bk (by simp)), hbk]
      · rw [(updateBackendCapabilities_frame env bk true w).2.2.1]
        simp [sweepCalls]
    | cons p pre1 ih =>
      intro bk post err hbs hpre hbk
      subst hbs
      have hp : outcomeOf env p true = Outcome.returned none := hpre p (by simp)
      have hnd2 : ((pre1 ++ bk :: post).map (fun b => b.Name)).Nodup := by
        simp only [List.cons_append, List.map_cons, List.nodup_cons] at hnodup
        exact hnodup.2
      obtain ⟨w1, h1, _, h3⟩ := ih (pre1 ++ bk :: post)
        (updateBackendCapabilities env p true w).2.2 hnd2
        (hstep p (pre1 ++ bk :: post) w hnodup hreg) bk post err rfl
        (fun b hb => hpre b (List.mem_cons_of_mem _ hb)) hbk
      refine ⟨w1, ?_, havail (p :: pre1), ?_⟩
      · simp only [SyncUpdateCapabilities] at h1
        simp only [SyncUpdateCapabilities, List.cons_append, List.map_cons]
        rw [syncLoop_cons env p (pre1 ++ bk :: post) w (hreg p (by simp)), hp]
        simp only [h1]
      · rw [h3, (updateBackendCapabilities_frame env p true w).2.2.1]
        simp [sweepCalls, List.append_assoc]
  · induction backends generalizing w with
    | nil =>
      intro _
      exact ⟨w, rfl, havail [], by simp [sweepCalls]⟩
    | cons p rest ih =>
      intro hall
      have hp : outcomeOf env p true = Outcome.returned none := hall p (by simp)
      have hnd2 : (rest.map (fun b => b.Name)).Nodup := by
        simp only [List.map_cons, List.nodup_cons] at hnodup
        exact hnodup.2
      obtain ⟨w1, h1, _, h3⟩ := ih (updateBackendCapabilities env p true w).2.2 hnd2
        (hstep p rest w hnodup hreg) (fun b hb => hall b (List.mem_cons_of_mem _ hb))
      refine ⟨w1, ?_, havail (p :: rest), ?_⟩
      · simp only [SyncUpdateCapabilities] at h1
        simp only [SyncUpdateCapabilities, List.map_cons]
        rw [syncLoop_cons env p rest w (hreg p (by simp)), hp]
        simp only [h1]
      · rw [h3, (updateBackendCapabilities_frame env p true w).2.2.1]
        simp [sweepCalls, List.append_assoc]

/-- A sweep over `B1`, the failing `B6` and `B2` as an instance of C8: the sweep
returns the error of `B6`, `B1` is synced and available, `B2` is untouched. -/
theorem SyncUpdateCapabilities_sweep_scenario :
    ∃ w1, SyncUpdateCapabilities onlineEnv [scenarioBackend, failingBackend, dtreeBackend]
        (startWorld ["B1", "B6", "B2"])
        = (Outcome.returned (some "connection refused"),
            [scenarioBackend].map (synced onlineEnv) ++
              backendAfter onlineEnv failingBackend true :: [dtreeBackend], w1) ∧
      (∀ b ∈ [scenarioBackend].map (synced onlineEnv), b.Available = true) ∧
      w1.trace = (startWorld ["B1", "B6", "B2"]).trace ++
        sweepCalls onlineEnv ([scenarioBackend] ++ [failingBackend]) :=
  (SyncUpdateCapabilities_sweep onlineEnv [scenarioBackend, failingBackend, dtreeBackend]
    (startWorld ["B1", "B6", "B2"]) (by decide) (by decide)).1
    [scenarioBackend] failingBackend [dtreeBackend] "connection refused" rfl
    (fun b hb => by
      rw [List.mem_singleton.mp hb]
      rfl)
    rfl

/-! ## The asynchronous sweep -/

theorem asyncTask_fst (env : Env) (b : Backend) (w : World) :
    (asyncTask env b w).1 = asyncResult env b := by
  obtain ⟨h1, h2, _, _⟩ := updateBackendCapabilities_frame env b false w
  cases hr : updateBackendCapabilities env b false w with
  | mk o st =>
    obtain ⟨b1, w1⟩ := st
    rw [hr] at h1 h2
    simp only at h1 h2
    subst h1 h2
    simp only [asyncTask, asyncResult, hr]
    generalize outcomeOf env b false = o
    rcases o with (_ | e) | _ <;> rfl

theorem AsyncUpdateCapabilities_fst (env : Env) :
    ∀ (backends : List Backend) (w : World),
      (AsyncUpdateCapabilities env backends w).1 = backends.map (asyncResult env) := by
  intro backends
  induction backends with
  | nil => intro w; rfl
  | cons b rest ih =>
    intro w
    simp only [AsyncUpdateCapabilities, List.map_cons]
    rw [← asyncTask_fst env b w, ← ih (asyncTask env b w).2]

theorem updatePoolCapabilitiesByBackend_name (backend : Backend) (B P : GoMap) (b : Backend)
    (l : List LogEntry)
    (h : updatePoolCapabilitiesByBackend backend B P = Exec.done (b, l) ∨
      updatePoolCapabilitiesByBackend backend B P = Exec.panicked (b, l)) :
    b.Name = backend.Name := by
  unfold updatePoolCapabilitiesByBackend at h
  cases hu : updatePools backend.Storage B P backend.Pools [] with
  | done st =>
    rw [hu] at h
    rcases h with h | h
    · cases h
      rfl
    · cases h
  | panicked st =>
    rw [hu] at h
    rcases h with h | h
    · cases h
    · cases h
      rfl

theorem backendAfter_name (env : Env) (backend : Backend) (sync : Bool) :
    (backendAfter env backend sync).Name = backend.Name := by
  unfold backendAfter updateBackendCapabilities
  simp only
  split
  · rfl
  · split
    · rfl
    · split
      · rfl
      · split
        · rfl
        · split
          · next b l heq =>
            exact updatePoolCapabilitiesByBackend_name backend _ _ b l (Or.inl heq)
          · next b l heq =>
            exact updatePoolCapabilitiesByBackend_name backend _ _ b l (Or.inr heq)

theorem getElem?_append_cons_length {α : Type} (xs : List α) (x : α) (ys : List α) :
    (xs ++ x :: ys)[xs.length]? = some x := by
  induction xs with
  | nil => simp
  | cons a rest ih => simpa using ih

/-- C9: for a backend `b` whose task's `updateBackendCapabilities(b, false)` returns
normally, whatever the other backends of the sweep and the package state are,
`b.Available` after `AsyncUpdateCapabilities` is true exactly when that call
returned nil, and false exactly when it returned an error. -/
theorem AsyncUpdateCapabilities_available (env : Env) (pre : List Backend) (b : Backend)
    (post : List Backend) (w : World) (hnormal : outcomeOf env b false ≠ Outcome.panicked) :
    ∃ b1, (AsyncUpdateCapabilities env (pre ++ b :: post) w).1[pre.length]? = some b1 ∧
      b1.Name = b.Name ∧
      (b1.Available = true ↔ outcomeOf env b false = Outcome.returned none) ∧
      (b1.Available = false ↔ ∃ err, outcomeOf env b false = Outcome.returned (some err)) := by
  refine ⟨asyncResult env b, ?_, ?_, ?_, ?_⟩
  · rw [AsyncUpdateCapabilities_fst, List.map_append, List.map_cons]
    have h := getElem?_append_cons_length (pre.map (asyncResult env)) (asyncResult env b)
      (post.map (asyncResult env))
    rwa [List.length_map] at h
  · have hn := backendAfter_name env b false
    unfold asyncResult
    rcases outcomeOf env b false with (_ | e) | _ <;> exact hn
  · unfold asyncResult
    rcases ho : outcomeOf env b false with (_ | e) | _
    · simp
    · simp
    · exact absurd ho hnormal
  · unfold asyncResult
    rcases ho : outcomeOf env b false with (_ | e) | _
    · simp
    · simp
    · exact absurd ho hnormal

/-- The asynchronous sweep over `B1`, the failing `B6` and `B2` as an instance of
C9: `B6`, available before, is not available afterwards. -/
theorem AsyncUpdateCapabilities_available_scenario :
    ∃ b1, (AsyncUpdateCapabilities onlineEnv ([scenarioBackend] ++ failingBackend ::
        [dtreeBackend]) (startWorld ["B1", "B6", "B2"])).1[[scenarioBackend].length]?
        = some b1 ∧
      b1.Name = failingBackend.Name ∧
      (b1.Available = true ↔ outcomeOf onlineEnv failingBackend false = Outcome.returned none) ∧
      (b1.Available = false ↔
        ∃ err, outcomeOf onlineEnv failingBackend false = Outcome.returned (some err)) :=
  AsyncUpdateCapabilities_available onlineEnv [scenarioBackend] failingBackend [dtreeBackend]
    (startWorld ["B1", "B6", "B2"]) (by decide)

/-! ## The availability flag after a failed strict sync -/

/-- C10 on the code: the strict sweep over a registry that holds only the backend
`B6`, available before the sweep, attempts its sync, returns the plugin's error and
leaves `Available` true, while the asynchronous sweep over the same registry sets it
to false. -/
theorem SyncUpdateCapabilities_keeps_available_on_error :
    failingBackend.Available = true ∧
      (SyncUpdateCapabilities onlineEnv [failingBackend] (startWorld ["B6"])).1
        = Outcome.returned (some "connection refused") ∧
      (SyncUpdateCapabilities onlineEnv [failingBackend] (startWorld ["B6"])).2.1.map
          (fun b => (b.Name, b.Available)) = [("B6", true)] ∧
      (SyncUpdateCapabilities onlineEnv [failingBackend] (startWorld ["B6"])).2.2.trace
        = [Event.GetSBCTOnlineStatusByClaim "huawei-csi/B6",
           Event.UpdateBackendCapabilities "B6"] ∧
      (AsyncUpdateCapabilities onlineEnv [failingBackend] (startWorld ["B6"])).1.map
          (fun b => (b.Name, b.Available)) = [("B6", false)] := by
  refine ⟨rfl, rfl, rfl, ?_, rfl⟩
  decide

end CsiBackend

namespace FusionClient

/-! ## Requests and the trace -/

/-- What `doCall` adds to the trace: nothing when the request cannot be built, the
acquire and the release when the transport is nil, and otherwise the acquire, the
one request and the release. -/
theorem doCall_trace (env : Env) (caller : Caller) (cli : Client) (method url : String)
    (data : Option JsonObj) (net : Net) :
    ∃ evs, (doCall env caller cli method url data net).2.trace = net.trace ++ evs ∧
      (evs = [] ∨
        evs = [Event.acquire net.clientSemaphore, Event.release net.clientSemaphore] ∨
        evs = [Event.acquire net.clientSemaphore,
               Event.send caller method url cli.authToken,
               Event.release net.clientSemaphore]) := by
  unfold doCall
  cases hreq : env.requestError method url data with
  | some err => exact ⟨[], by simp, Or.inl rfl⟩
  | none =>
    cases hc : cli.client with
    | none =>
      exact ⟨[Event.acquire net.clientSemaphore, Event.release net.clientSemaphore],
        by simp [Net.record], Or.inr (Or.inl rfl)⟩
    | some h =>
      rcases hr : net.nextReply with ⟨r, rest⟩
      refine ⟨[Event.acquire net.clientSemaphore,
               Event.send caller method url cli.authToken,
               Event.release net.clientSemaphore], ?_, Or.inr (Or.inr rfl)⟩
      cases r <;> simp [Net.record]

theorem doCall_clientSemaphore (env : Env) (caller : Caller) (cli : Client)
    (method url : String) (data : Option JsonObj) (net : Net) :
    (doCall env caller cli method url data net).2.clientSemaphore = net.clientSemaphore := by
  unfold doCall
  cases hreq : env.requestError method url data with
  | some err => rfl
  | none =>
    cases hc : cli.client with
    | none => rfl
    | some h =>
      rcases hr : net.nextReply with ⟨r, rest⟩
      cases r <;> rfl

theorem baseCall_snd (env : Env) (cli : Client) (method url : String)
    (data : Option JsonObj) (net : Net) :
    (baseCall env cli method url data net).2
      = (doCall env Caller.baseCall cli method url data net).2 := by
  unfold baseCall
  rcases doCall env Caller.baseCall cli method url data net with ⟨r, n⟩
  rcases r with (e | ⟨h, raw⟩) | _ <;> rfl

/-- The events of `baseCall` are no request of `call`, no invocation of `reLogin`
and no status report. -/
theorem baseCall_trace (env : Env) (cli : Client) (method url : String)
    (data : Option JsonObj) (net : Net) :
    ∃ evs, (baseCall env cli method url data net).2.trace = net.trace ++ evs ∧
      ∀ e ∈ evs, e.isCallSend = false ∧ e.isReLogin = false ∧ e.isStatusReport = false := by
  rw [baseCall_snd]
  obtain ⟨evs, h1, h2⟩ := doCall_trace env Caller.baseCall cli method url data net
  refine ⟨evs, h1, fun e he => ?_⟩
  rcases h2 with h | h | h <;> subst h <;> simp at he
  · rcases he with he | he <;> subst he <;>
      simp [Event.isCallSend, Event.isReLogin, Event.isStatusReport]
  · rcases he with he | he | he <;> subst he <;>
      simp [Event.isCallSend, Event.isReLogin, Event.isStatusReport]

theorem setAccountId_trace (env : Env) (cli : Client) (net : Net) :
    ∃ evs, (setAccountId env cli net).2.2.trace = net.trace ++ evs ∧
      ∀ e ∈ evs, e.isCallSend = false ∧ e.isReLogin = false ∧ e.isStatusReport = false := by
  unfold setAccountId
  by_cases hname : cli.accountName = ""
  · exact ⟨[], by simp [hname], by simp⟩
  · refine ⟨[Event.GetAccountIdByName cli.accountName], ?_, ?_⟩
    · simp only [hname, if_false]
      cases env.GetAccountIdByName cli.accountName with
      | error err => simp [Net.record]
      | ok accountId =>
        simp only
        split <;> simp [Net.record]
    · intro e he
      simp at he
      subst he
      simp [Event.isCallSend, Event.isReLogin, Event.isStatusReport]

theorem append_quiet {p : Event → Prop} (a evs1 evs2 : List Event) (t : List Event)
    (h1 : t = a ++ evs1) (hq1 : ∀ e ∈ evs1, p e) (t2 : List Event) (h2 : t2 = t ++ evs2)
    (hq2 : ∀ e ∈ evs2, p e) :
    ∃ evs, t2 = a ++ evs ∧ ∀ e ∈ evs, p e := by
  refine ⟨evs1 ++ evs2, by rw [h2, h1, List.append_assoc], fun e he => ?_⟩
  rcases List.mem_append.mp he with h | h
  · exact hq1 e h
  · exact hq2 e h

/-- The events of `Login` are no request of `call` and no invocation of `reLogin`. -/
theorem Login_trace (env : Env) (cli : Client) (net : Net) :
    ∃ evs, (Login env cli net).2.2.trace = net.trace ++ evs ∧
      ∀ e ∈ evs, e.isCallSend = false ∧ e.isReLogin = false := by
  have hrec : ∀ (n : Net) (ev : Event), ev.isCallSend = false → ev.isReLogin = false →
      (∃ evs, n.trace = net.trace ++ evs ∧
        ∀ e ∈ evs, e.isCallSend = false ∧ e.isReLogin = false) →
      ∃ evs, (n.record ev).trace = net.trace ++ evs ∧
        ∀ e ∈ evs, e.isCallSend = false ∧ e.isReLogin = false := by
    intro n ev h1 h2 ⟨evs, h3, h4⟩
    refine append_quiet net.trace evs [ev] n.trace h3 h4 _ (by simp [Net.record]) ?_
    intro e he
    simp at he
    subst he
    exact ⟨h1, h2⟩
  have h0 : ∃ evs, (net.record (Event.GetPasswordFromBackendID cli.backendID)).trace
      = net.trace ++ evs ∧ ∀ e ∈ evs, e.isCallSend = false ∧ e.isReLogin = false :=
    hrec net _ rfl rfl ⟨[], by simp, by simp⟩
  unfold Login
  simp only
  cases env.GetPasswordFromBackendID cli.backendID with
  | error err => exact h0
  | ok password =>
    simp only
    obtain ⟨evs0, h01, h02⟩ := h0
    obtain ⟨evs1, h11, h12⟩ := baseCall_trace env { cli with client := some newHttpClient }
      "POST" loginUrl
      (some [("userName", Json.string cli.user), ("password", Json.string password)])
      (net.record (Event.GetPasswordFromBackendID cli.backendID))
    have hb := append_quiet (p := fun e => e.isCallSend = false ∧ e.isReLogin = false)
      net.trace evs0 evs1 _ h01 h02 _ h11 (fun e he => ⟨(h12 e he).1, (h12 e he).2.1⟩)
    rcases hcall : baseCall env { cli with client := some newHttpClient } "POST" loginUrl
      (some [("userName", Json.string cli.user), ("password", Json.string password)])
      (net.record (Event.GetPasswordFromBackendID cli.backendID)) with ⟨r, n⟩
    rw [hcall] at hb
    simp only at hb
    rcases r with (e | ⟨respHeader, resp⟩) | _
    · exact hb
    · simp only
      split
      · split
        · split
          · split
            · split
              · exact hrec n _ rfl rfl hb
              · exact hrec n _ rfl rfl hb
            · exact hb
          · exact hb
        · split
          · next token rest2 htok =>
            obtain ⟨evs2, h21, h22⟩ := setAccountId_trace env
              { ({ cli with client := some newHttpClient } : Client) with authToken := token } n
            obtain ⟨evs3, h31, h32⟩ := hb
            have hc := append_quiet (p := fun e => e.isCallSend = false ∧ e.isReLogin = false)
              net.trace evs3 evs2 _ h31 h32 _ h21
              (fun e he => ⟨(h22 e he).1, (h22 e he).2.1⟩)
            split <;> simp_all
          · exact hb
      · exact hb
    · exact hb

/-- The events of `Logout` are no request of `call` and no invocation of `reLogin`. -/
theorem Logout_trace (env : Env) (cli : Client) (net : Net) :
    ∃ evs, (Logout env cli net).2.2.trace = net.trace ++ evs ∧
      ∀ e ∈ evs, e.isCallSend = false ∧ e.isReLogin = false := by
  unfold Logout
  cases hc : cli.client with
  | none => exact ⟨[], by simp, by simp⟩
  | some h =>
    simp only
    obtain ⟨evs, h1, h2⟩ := baseCall_trace env cli "POST" logoutUrl none net
    have hb : ∃ evs, (baseCall env cli "POST" logoutUrl none net).2.trace = net.trace ++ evs ∧
        ∀ e ∈ evs, e.isCallSend = false ∧ e.isReLogin = false :=
      ⟨evs, h1, fun e he => ⟨(h2 e he).1, (h2 e he).2.1⟩⟩
    rcases hcall : baseCall env cli "POST" logoutUrl none net with ⟨r, n⟩
    rw [hcall] at hb
    simp only at hb
    rcases r with (e | ⟨respHeader, resp⟩) | _
    · exact hb
    · simp only
      split <;> exact hb
    · exact hb

theorem reLoginLocked_trace (env : Env) (oldToken : String) (cli : Client) (net : Net) :
    ∃ evs, (reLoginLocked env oldToken cli net).2.2.trace = net.trace ++ evs ∧
      ∀ e ∈ evs, e.isCallSend = false ∧ e.isReLogin = false := by
  unfold reLoginLocked
  split
  · exact ⟨[], by simp, by simp⟩
  · split
    · obtain ⟨evs1, h1, h2⟩ := Logout_trace env cli net
      rcases hl : Logout env cli net with ⟨r, c, n⟩
      rw [hl] at h1
      simp only at h1
      cases r with
      | panicked => exact ⟨evs1, h1, h2⟩
      | ret u =>
        simp only
        obtain ⟨evs2, g1, g2⟩ := Login_trace env c n
        exact append_quiet net.trace evs1 evs2 n.trace h1 h2 _ g1 g2
    · exact Login_trace env cli net

/-- The events of `reLogin` are its own invocation and then no request of `call`
and no further invocation of `reLogin`. -/
theorem reLogin_trace (env : Env) (cli : Client) (net : Net) :
    ∃ evs, (reLogin env cli net).2.2.trace = net.trace ++ Event.reLogin :: evs ∧
      ∀ e ∈ evs, e.isCallSend = false ∧ e.isReLogin = false := by
  unfold reLogin
  obtain ⟨evs, h1, h2⟩ := reLoginLocked_trace env cli.authToken cli (net.record Event.reLogin)
  refine ⟨evs, ?_, h2⟩
  rw [h1]
  simp [Net.record]

theorem countP_quiet (p : Event → Bool) (evs : List Event) (h : ∀ e ∈ evs, p e = false) :
    List.countP p evs = 0 := by
  rw [List.countP_eq_zero]
  intro e he
  simp [h e he]

theorem doCall_count (env : Env) (caller : Caller) (cli : Client) (method url : String)
    (data : Option JsonObj) (net : Net) :
    List.countP Event.isCallSend (doCall env caller cli method url data net).2.trace
        ≤ List.countP Event.isCallSend net.trace + 1 ∧
      List.countP Event.isReLogin (doCall env caller cli method url data net).2.trace
        = List.countP Event.isReLogin net.trace := by
  obtain ⟨evs, h1, h2⟩ := doCall_trace env caller cli method url data net
  rw [h1, List.countP_append, List.countP_append]
  rcases h2 with h | h | h <;> subst h
  · simp
  · simp [List.countP_cons, Event.isCallSend, Event.isReLogin]
  · cases caller <;> simp [List.countP_cons, Event.isCallSend, Event.isReLogin]

theorem reLogin_count (env : Env) (cli : Client) (net : Net) :
    List.countP Event.isCallSend (reLogin env cli net).2.2.trace
        = List.countP Event.isCallSend net.trace ∧
      List.countP Event.isReLogin (reLogin env cli net).2.2.trace
        = List.countP Event.isReLogin net.trace + 1 := by
  obtain ⟨evs, h1, h2⟩ := reLogin_trace env cli net
  rw [h1, List.countP_append, List.countP_append, List.countP_cons, List.countP_cons,
    countP_quiet Event.isCallSend evs (fun e he => (h2 e he).1),
    countP_quiet Event.isReLogin evs (fun e he => (h2 e he).2)]
  simp [Event.isCallSend, Event.isReLogin]

theorem callFirst_snd (env : Env) (cli : Client) (method url : String)
    (data : Option JsonObj) (net : Net) :
    (callFirst env cli method url data net).2
      = (doCall env Caller.call cli method url data net).2 := by
  unfold callFirst
  rcases doCall env Caller.call cli method url data net with ⟨r, n⟩
  rcases r with (e | ⟨h, raw⟩) | _
  · simp only
    split <;> rfl
  · simp only
    cases raw with
    | error err => rfl
    | ok body =>
      simp only
      split <;> rfl
  · rfl

/-- The first part of `call` ends at the label `RETRY` exactly after the error
`unconnected`, with a nil `body`, or after a decoded body with a session-expiry
code, with that body. -/
theorem callFirst_retry_iff (env : Env) (cli : Client) (method url : String)
    (data : Option JsonObj) (net : Net) (b : Option JsonObj) :
    (callFirst env cli method url data net).1 = Run.ret (FirstStep.retry b) ↔
      (((doCall env Caller.call cli method url data net).1
          = Run.ret (Except.error "unconnected") ∧ b = none) ∨
        ∃ header body, (doCall env Caller.call cli method url data net).1
            = Run.ret (Except.ok (header, Except.ok body)) ∧ isSessionExpired body = true ∧
          b = some body) := by
  unfold callFirst
  rcases doCall env Caller.call cli method url data net with ⟨r, n⟩
  rcases r with (e | ⟨hd, raw⟩) | _
  · by_cases he : e = "unconnected"
    · subst he
      dsimp only
      rw [if_pos rfl]
      constructor
      · intro h
        exact Or.inl ⟨rfl, (FirstStep.retry.inj (Run.ret.inj h)).symm⟩
      · rintro (⟨_, h⟩ | ⟨header, body, h, _, _⟩)
        · rw [h]
        · exact absurd (Run.ret.inj h) (by simp)
    · simp [he]
  · cases raw with
    | error err => simp
    | ok body =>
      by_cases hb : isSessionExpired body = true
      · simp only [hb, if_true]
        constructor
        · intro h
          exact Or.inr ⟨hd, body, rfl, hb, (FirstStep.retry.inj (Run.ret.inj h)).symm⟩
        · rintro (⟨h, _⟩ | ⟨header, body2, h, _, hb2⟩)
          · exact absurd (Run.ret.inj h) (by simp)
          · have h1 := Except.ok.inj (Run.ret.inj h)
            have h2 : body = body2 := Except.ok.inj (Prod.mk.inj h1).2
            rw [hb2, h2]
      · simp [hb]
  · simp

/-! ## One resend after one relogin -/

theorem call_of_callFirst (env : Env) (cli : Client) (method url : String)
    (data : Option JsonObj) (net : Net) :
    call env cli method url data net =
      match (callFirst env cli method url data net).1 with
      | Run.panicked => (Run.panicked, cli, (callFirst env cli method url data net).2)
      | Run.ret (FirstStep.result r) =>
        (Run.ret r, cli, (callFirst env cli method url data net).2)
      | Run.ret (FirstStep.retry body) =>
        retry env cli method url data body (callFirst env cli method url data net).2 := by
  unfold call
  rcases callFirst env cli method url data net with ⟨r, n⟩
  rcases r with (_ | r) | _ <;> rfl

theorem retry_of_reLogin (env : Env) (cli : Client) (method url : String)
    (data : Option JsonObj) (body : Option JsonObj) (net : Net) :
    retry env cli method url data body net =
      match (reLogin env cli net).1 with
      | Run.panicked => (Run.panicked, (reLogin env cli net).2.1, (reLogin env cli net).2.2)
      | Run.ret (some err) =>
        (Run.ret (Except.error err), (reLogin env cli net).2.1, (reLogin env cli net).2.2)
      | Run.ret none =>
        match doCall env Caller.call (reLogin env cli net).2.1 method url data
            (reLogin env cli net).2.2 with
        | (Run.panicked, n2) => (Run.panicked, (reLogin env cli net).2.1, n2)
        | (Run.ret (Except.error err), n2) =>
          (Run.ret (Except.error err), (reLogin env cli net).2.1, n2)
        | (Run.ret (Except.ok (header, raw)), n2) =>
          (Run.ret (decodeInto body header raw), (reLogin env cli net).2.1, n2) := by
  unfold retry
  rcases reLogin env cli net with ⟨r, c, n⟩
  rcases r with (_ | e) | _ <;> rfl

theorem retry_snd_of_ok (env : Env) (cli : Client) (method url : String)
    (data : Option JsonObj) (body : Option JsonObj) (net : Net)
    (h : (reLogin env cli net).1 = Run.ret none) :
    (retry env cli method url data body net).2.2
      = (doCall env Caller.call (reLogin env cli net).2.1 method url data
          (reLogin env cli net).2.2).2 := by
  rw [retry_of_reLogin, h]
  simp only
  rcases doCall env Caller.call (reLogin env cli net).2.1 method url data
    (reLogin env cli net).2.2 with ⟨r, n⟩
  rcases r with (e | ⟨hd, raw⟩) | _ <;> rfl

theorem retry_snd_of_not_ok (env : Env) (cli : Client) (method url : String)
    (data : Option JsonObj) (body : Option JsonObj) (net : Net)
    (h : (reLogin env cli net).1 ≠ Run.ret none) :
    (retry env cli method url data body net).2.2 = (reLogin env cli net).2.2 := by
  rw [retry_of_reLogin]
  rcases hr : (reLogin env cli net).1 with (_ | e) | _
  · exact absurd hr h
  · rfl
  · rfl

/-- One invocation of `call` sends the request at most twice and invokes `reLogin`
at most once.  A second send is made only when the first send ended in the
transport failure `unconnected` or in a decoded body with a session-expiry code, and
`reLogin` then returned nil; after the second send `call` returns without looking
at the answer for a session-expiry code: its error as it is, and its body decoded
into the variable `body` of the first part; and when `reLogin` returns an error,
`call` returns that error with the state `reLogin` left, without a second send. -/
theorem call_sends_at_most_twice (env : Env) (cli : Client) (method url : String)
    (data : Option JsonObj) (net : Net) :
    (List.countP Event.isCallSend (call env cli method url data net).2.2.trace
        ≤ List.countP Event.isCallSend net.trace + 2 ∧
      List.countP Event.isReLogin (call env cli method url data net).2.2.trace
        ≤ List.countP Event.isReLogin net.trace + 1) ∧
    (List.countP Event.isCallSend (call env cli method url data net).2.2.trace
        = List.countP Event.isCallSend net.trace + 2 →
      ((doCall env Caller.call cli method url data net).1
          = Run.ret (Except.error "unconnected") ∨
        ∃ header body, (doCall env Caller.call cli method url data net).1
            = Run.ret (Except.ok (header, Except.ok body)) ∧
          isSessionExpired body = true) ∧
      (reLogin env cli (doCall env Caller.call cli method url data net).2).1
        = Run.ret none) ∧
    (∀ b c n2 header raw n3,
      (callFirst env cli method url data net).1 = Run.ret (FirstStep.retry b) →
      reLogin env cli (callFirst env cli method url data net).2 = (Run.ret none, c, n2) →
      doCall env Caller.call c method url data n2
        = (Run.ret (Except.ok (header, raw)), n3) →
      call env cli method url data net = (Run.ret (decodeInto b header raw), c, n3) ∧
        List.countP Event.isReLogin n3.trace = List.countP Event.isReLogin net.trace + 1) ∧
    (∀ b c n2 err n3,
      (callFirst env cli method url data net).1 = Run.ret (FirstStep.retry b) →
      reLogin env cli (callFirst env cli method url data net).2 = (Run.ret none, c, n2) →
      doCall env Caller.call c method url data n2 = (Run.ret (Except.error err), n3) →
      call env cli method url data net = (Run.ret (Except.error err), c, n3)) ∧
    (∀ b err c n2,
      (callFirst env cli method url data net).1 = Run.ret (FirstStep.retry b) →
      reLogin env cli (callFirst env cli method url data net).2
        = (Run.ret (some err), c, n2) →
      call env cli method url data net = (Run.ret (Except.error err), c, n2) ∧
        List.countP Event.isCallSend n2.trace
          ≤ List.countP Event.isCallSend net.trace + 1) := by
  have hfirst := doCall_count env Caller.call cli method url data net
  have hsnd := callFirst_snd env cli method url data net
  have hcall := call_of_callFirst env cli method url data net
  have hre := reLogin_count env cli (callFirst env cli method url data net).2
  rw [← hsnd] at hfirst
  -- the trace of `call` in the three cases of the first part
  have htrace : (∀ b, (callFirst env cli method url data net).1
        ≠ Run.ret (FirstStep.retry b)) →
      (call env cli method url data net).2.2 = (callFirst env cli method url data net).2 := by
    intro hne
    rw [hcall]
    rcases hr : (callFirst env cli method url data net).1 with (b | r) | _
    · exact absurd hr (hne b)
    · rfl
    · rfl
  have hretry : ∀ b, (callFirst env cli method url data net).1
        = Run.ret (FirstStep.retry b) →
      call env cli method url data net
        = retry env cli method url data b (callFirst env cli method url data net).2 := by
    intro b hr
    rw [hcall, hr]
  refine ⟨?_, ?_, ?_, ?_, ?_⟩
  · by_cases hr : ∃ b, (callFirst env cli method url data net).1
        = Run.ret (FirstStep.retry b)
    · obtain ⟨b, hr⟩ := hr
      rw [hretry b hr]
      by_cases hok : (reLogin env cli (callFirst env cli method url data net).2).1
          = Run.ret none
      · rw [retry_snd_of_ok _ _ _ _ _ _ _ hok]
        have h2 := doCall_count env Caller.call
          (reLogin env cli (callFirst env cli method url data net).2).2.1 method url data
          (reLogin env cli (callFirst env cli method url data net).2).2.2
        omega
      · rw [retry_snd_of_not_ok _ _ _ _ _ _ _ hok]
        omega
    · rw [htrace (fun b hb => hr ⟨b, hb⟩)]
      omega
  · intro hcount
    by_cases hr : ∃ b, (callFirst env cli method url data net).1
        = Run.ret (FirstStep.retry b)
    · obtain ⟨b, hr⟩ := hr
      refine ⟨?_, ?_⟩
      · rcases (callFirst_retry_iff env cli method url data net b).mp hr with
          ⟨h1, _⟩ | ⟨header, body, h1, h2, _⟩
        · exact Or.inl h1
        · exact Or.inr ⟨header, body, h1, h2⟩
      · rw [← hsnd]
        by_contra hok
        rw [hretry b hr, retry_snd_of_not_ok _ _ _ _ _ _ _ hok] at hcount
        omega
    · rw [htrace (fun b hb => hr ⟨b, hb⟩)] at hcount
      omega
  · intro b c n2 header raw n3 hr hrl hdo
    have hc : call env cli method url data net
        = (Run.ret (decodeInto b header raw), c, n3) := by
      rw [hretry b hr, retry_of_reLogin, hrl]
      simp only [hdo]
    refine ⟨hc, ?_⟩
    have h2 := doCall_count env Caller.call c method url data n2
    rw [hdo] at h2
    rw [hrl] at hre
    simp only at h2 hre
    omega
  · intro b c n2 err n3 hr hrl hdo
    rw [hretry b hr, retry_of_reLogin, hrl]
    simp only [hdo]
  · intro b err c n2 hr hrl
    refine ⟨?_, ?_⟩
    · rw [hretry b hr, retry_of_reLogin, hrl]
    · rw [hrl] at hre
      simp only at hre
      omega

theorem isLoginLockCode_iff (code : Int) :
    isLoginLockCode code = true ↔
      (code = 1077949061 ∨ code = 1077987870 ∨ code = 1073754390 ∨ code = 1077949071) := by
  simp [isLoginLockCode, loginFailed, loginFailedWithArg, userPasswordInvalid, IPLock,
    or_assoc]

theorem filter_quiet (p : Event → Bool) (a evs t : List Event) (h : t = a ++ evs)
    (hq : ∀ e ∈ evs, p e = false) : List.filter p t = List.filter p a := by
  rw [h, List.filter_append]
  have : List.filter p evs = [] := by
    rw [List.filter_eq_nil_iff]
    intro e he
    simp [hq e he]
  rw [this, List.append_nil]

theorem baseCall_statusReports (env : Env) (cli : Client) (method url : String)
    (data : Option JsonObj) (net : Net) :
    List.filter Event.isStatusReport (baseCall env cli method url data net).2.trace
      = List.filter Event.isStatusReport net.trace := by
  obtain ⟨evs, h1, h2⟩ := baseCall_trace env cli method url data net
  exact filter_quiet _ _ evs _ h1 (fun e he => (h2 e he).2.2)

theorem setAccountId_statusReports (env : Env) (cli : Client) (net : Net) :
    List.filter Event.isStatusReport (setAccountId env cli net).2.2.trace
      = List.filter Event.isStatusReport net.trace := by
  obtain ⟨evs, h1, h2⟩ := setAccountId_trace env cli net
  exact filter_quiet _ _ evs _ h1 (fun e he => (h2 e he).2.2)

/-- C11, as stated, fails: a login answer whose numeric `result` is 0.5, which is
not zero, with the error code 1077949061 and a session token in its header.  Line
201 converts the result to the `int64` 0, so `Login` returns nil, stores the token
and reports nothing. -/
theorem Login_fraction_result_counterexample :
    fractionBody.get "result" = some (Json.number { mant := 1, exp := -1 }) ∧
      ({ mant := 1, exp := -1 } : Float64).mant ≠ 0 ∧
      Float64.toInt64 { mant := 1, exp := -1 } = 0 ∧
      fractionBody.get "errorCode" = some (Json.number (Float64.ofInt 1077949061)) ∧
      (Login demoEnv demoClient
          (startNet [Reply.response (tokenHeader "T2") (Except.ok fractionBody)])).1
        = Run.ret none ∧
      (Login demoEnv demoClient
          (startNet [Reply.response (tokenHeader "T2") (Except.ok fractionBody)])).2.1.authToken
        = "T2" ∧
      (Login demoEnv demoClient
          (startNet [Reply.response (tokenHeader "T2") (Except.ok fractionBody)])).2.2.trace
        = [Event.GetPasswordFromBackendID "huawei-csi/B1",
           Event.acquire { id := 0, capacity := 50 },
           Event.send Caller.baseCall "POST" loginUrl "T1",
           Event.release { id := 0, capacity := 50 }] := by
  refine ⟨rfl, ?_, ?_, rfl, rfl, ?_, ?_⟩ <;> decide

/-- C11, amended: for every login response whose `result`, converted to `int64`, is not
zero, `Login` returns a non-nil error and leaves the session token as it was; it
reports the claim offline, `SetStorageBackendContentOnlineStatus(backendID, false)`,
when the response carries a numeric `errorCode` whose `int64` value is 1077949061,
1077987870, 1073754390 or 1077949071, and issues no report otherwise.  In every
other run of `Login` (no password, failed or undecodable request, `result` 0, a
panic) no report is issued. -/
theorem Login_reports_offline (env : Env) (cli : Client) (net : Net) :
    (∀ password header resp n result,
      env.GetPasswordFromBackendID cli.backendID = Except.ok password →
      baseCall env { cli with client := some newHttpClient } "POST" loginUrl
          (some [("userName", Json.string cli.user), ("password", Json.string password)])
          (net.record (Event.GetPasswordFromBackendID cli.backendID))
        = (Run.ret (Except.ok (header, resp)), n) →
      resp.get "result" = some (Json.number result) → result.toInt64 ≠ 0 →
      ∃ err n2, Login env cli net
          = (Run.ret (some err), { cli with client := some newHttpClient }, n2) ∧
        ((∃ code, resp.get "errorCode" = some (Json.number code) ∧
            (code.toInt64 = 1077949061 ∨ code.toInt64 = 1077987870 ∨
              code.toInt64 = 1073754390 ∨ code.toInt64 = 1077949071)) →
          n2 = n.record (Event.SetStorageBackendContentOnlineStatus cli.backendID false)) ∧
        (¬(∃ code, resp.get "errorCode" = some (Json.number code) ∧
            (code.toInt64 = 1077949061 ∨ code.toInt64 = 1077987870 ∨
              code.toInt64 = 1073754390 ∨ code.toInt64 = 1077949071)) →
          n2 = n)) ∧
    (List.filter Event.isStatusReport (Login env cli net).2.2.trace
        ≠ List.filter Event.isStatusReport net.trace →
      ∃ password header resp n result code,
        env.GetPasswordFromBackendID cli.backendID = Except.ok password ∧
        baseCall env { cli with client := some newHttpClient } "POST" loginUrl
            (some [("userName", Json.string cli.user), ("password", Json.string password)])
            (net.record (Event.GetPasswordFromBackendID cli.backendID))
          = (Run.ret (Except.ok (header, resp)), n) ∧
        resp.get "result" = some (Json.number result) ∧ result.toInt64 ≠ 0 ∧
        resp.get "errorCode" = some (Json.number code) ∧
        (code.toInt64 = 1077949061 ∨ code.toInt64 = 1077987870 ∨
          code.toInt64 = 1073754390 ∨ code.toInt64 = 1077949071)) := by
  constructor
  · intro password header resp n result hpw hcall hres hnz
    unfold Login
    simp only [hpw, hcall, hres, hnz, ne_eq, not_false_eq_true, if_true]
    cases hcode : resp.get "errorCode" with
    | none => exact ⟨_, _, rfl, by simp, fun _ => rfl⟩
    | some v =>
      cases v with
      | number code =>
        by_cases hlock : isLoginLockCode code.toInt64 = true
        · have hl := (isLoginLockCode_iff code.toInt64).mp hlock
          simp only [hlock, if_true]
          cases env.SetStorageBackendContentOnlineStatus cli.backendID false with
          | none =>
            exact ⟨_, _, rfl, fun _ => rfl, fun hno => absurd ⟨code, rfl, hl⟩ hno⟩
          | some setErr =>
            exact ⟨_, _, rfl, fun _ => rfl, fun hno => absurd ⟨code, rfl, hl⟩ hno⟩
        · simp only [hlock]
          refine ⟨_, _, rfl, ?_, fun _ => rfl⟩
          rintro ⟨code2, h2, hl⟩
          cases h2
          exact absurd ((isLoginLockCode_iff code.toInt64).mpr hl) hlock
      | null | bool _ | string _ | array _ | object _ =>
        exact ⟨_, _, rfl, by simp, fun _ => rfl⟩
  · intro hne
    have hrec : List.filter Event.isStatusReport
        (net.record (Event.GetPasswordFromBackendID cli.backendID)).trace
        = List.filter Event.isStatusReport net.trace := by
      simp [Net.record, List.filter_append, Event.isStatusReport]
    unfold Login at hne
    simp only at hne
    cases hpw : env.GetPasswordFromBackendID cli.backendID with
    | error err =>
      rw [hpw] at hne
      exact absurd hrec hne
    | ok password =>
      rw [hpw] at hne
      simp only at hne
      have hb := baseCall_statusReports env { cli with client := some newHttpClient } "POST"
        loginUrl
        (some [("userName", Json.string cli.user), ("password", Json.string password)])
        (net.record (Event.GetPasswordFromBackendID cli.backendID))
      rw [hrec] at hb
      rcases hcall : baseCall env { cli with client := some newHttpClient } "POST" loginUrl
        (some [("userName", Json.string cli.user), ("password", Json.string password)])
        (net.record (Event.GetPasswordFromBackendID cli.backendID)) with ⟨r, n⟩
      rw [hcall] at hne hb
      simp only at hne hb
      rcases r with (e | ⟨respHeader, resp⟩) | _
      · exact absurd hb hne
      · simp only at hne
        cases hres : resp.get "result" with
        | none =>
          rw [hres] at hne
          exact absurd hb hne
        | some v =>
          cases v with
          | number result =>
            rw [hres] at hne
            simp only at hne
            by_cases hz : result.toInt64 = 0
            · simp only [hz, ne_eq, not_true_eq_false, if_false] at hne
              exfalso
              apply hne
              split
              · next token rest2 htok =>
                have hs := setAccountId_statusReports env
                  { ({ cli with client := some newHttpClient } : Client) with
                    authToken := token } n
                split <;> simp_all
              · exact hb
            · simp only [hz, ne_eq, not_false_eq_true, if_true] at hne
              cases hcode : resp.get "errorCode" with
              | none =>
                rw [hcode] at hne
                exact absurd hb hne
              | some w =>
                cases w with
                | number code =>
                  rw [hcode] at hne
                  simp only at hne
                  by_cases hlock : isLoginLockCode code.toInt64 = true
                  · exact ⟨password, respHeader, resp, n, result, code, rfl, hcall, hres, hz,
                      hcode, (isLoginLockCode_iff code.toInt64).mp hlock⟩
                  · simp only [hlock] at hne
                    exact absurd hb hne
                | null | bool _ | string _ | array _ | object _ =>
                  rw [hcode] at hne
                  exact absurd hb hne
          | null | bool _ | string _ | array _ | object _ =>
            rw [hres] at hne
            exact absurd hb hne
      · exact absurd hb hne

/-- A login answered with the code `loginFailed`, as an instance of amended C11: `Login`
returns an error, the token stays `T1`, and the claim is reported offline once. -/
theorem Login_reports_offline_scenario :
    (∃ err n2, Login demoEnv demoClient (startNet [Reply.response [] (Except.ok lockedBody)])
        = (Run.ret (some err), { demoClient with client := some newHttpClient }, n2) ∧
      ((∃ code, lockedBody.get "errorCode" = some (Json.number code) ∧
          (code.toInt64 = 1077949061 ∨ code.toInt64 = 1077987870 ∨
            code.toInt64 = 1073754390 ∨ code.toInt64 = 1077949071)) →
        n2 = Net.record
          { clientSemaphore := { id := 0, capacity := 50 }, allocated := 1, replies := [],
            trace := [Event.GetPasswordFromBackendID "huawei-csi/B1",
                      Event.acquire { id := 0, capacity := 50 },
                      Event.send Caller.baseCall "POST" loginUrl "T1",
                      Event.release { id := 0, capacity := 50 }] }
          (Event.SetStorageBackendContentOnlineStatus demoClient.backendID false)) ∧
      (¬(∃ code, lockedBody.get "errorCode" = some (Json.number code) ∧
          (code.toInt64 = 1077949061 ∨ code.toInt64 = 1077987870 ∨
            code.toInt64 = 1073754390 ∨ code.toInt64 = 1077949071)) →
        n2 = { clientSemaphore := { id := 0, capacity := 50 }, allocated := 1, replies := [],
               trace := [Event.GetPasswordFromBackendID "huawei-csi/B1",
                         Event.acquire { id := 0, capacity := 50 },
                         Event.send Caller.baseCall "POST" loginUrl "T1",
                         Event.release { id := 0, capacity := 50 }] })) ∧
    (Login demoEnv demoClient (startNet [Reply.response [] (Except.ok lockedBody)])).2.2.trace
      = [Event.GetPasswordFromBackendID "huawei-csi/B1",
         Event.acquire { id := 0, capacity := 50 },
         Event.send Caller.baseCall "POST" loginUrl "T1",
         Event.release { id := 0, capacity := 50 },
         Event.SetStorageBackendContentOnlineStatus "huawei-csi/B1" false] :=
  ⟨(Login_reports_offline demoEnv demoClient
      (startNet [Reply.response [] (Except.ok lockedBody)])).1 "secret" [] lockedBody
      { clientSemaphore := { id := 0, capacity := 50 }, allocated := 1, replies := [],
        trace := [Event.GetPasswordFromBackendID "huawei-csi/B1",
                  Event.acquire { id := 0, capacity := 50 },
                  Event.send Caller.baseCall "POST" loginUrl "T1",
                  Event.release { id := 0, capacity := 50 }] }
      (Float64.ofInt 2) rfl rfl rfl (by decide),
    by decide⟩

/-! ## Logout -/

/-- C12: whatever the logout request yields, `Logout` leaves the client with an
empty token and a nil transport and every other field as it was.  It returns
normally when the request fails or its body cannot be decoded, and when the body
carries a numeric `result`, zero or not; on a client whose transport is already nil
it sends nothing; and a second `Logout` right after the first changes nothing and
sends nothing. -/
theorem Logout_clears_session (env : Env) (cli : Client) (net : Net) :
    (Logout env cli net).2.1 = { cli with authToken := "", client := none } ∧
    (cli.client = none →
      Logout env cli net = (Run.ret (), { cli with authToken := "", client := none }, net)) ∧
    (∀ err n, cli.client ≠ none →
      baseCall env cli "POST" logoutUrl none net = (Run.ret (Except.error err), n) →
      Logout env cli net = (Run.ret (), { cli with authToken := "", client := none }, n)) ∧
    (∀ header resp n result, cli.client ≠ none →
      baseCall env cli "POST" logoutUrl none net = (Run.ret (Except.ok (header, resp)), n) →
      resp.get "result" = some (Json.number result) →
      Logout env cli net = (Run.ret (), { cli with authToken := "", client := none }, n)) ∧
    Logout env (Logout env cli net).2.1 (Logout env cli net).2.2
      = (Run.ret (), (Logout env cli net).2.1, (Logout env cli net).2.2) := by
  have hstate : (Logout env cli net).2.1 = { cli with authToken := "", client := none } := by
    unfold Logout
    cases hc : cli.client with
    | none => rfl
    | some t =>
      simp only
      rcases baseCall env cli "POST" logoutUrl none net with ⟨r, n⟩
      rcases r with (e | ⟨header, resp⟩) | _
      · rfl
      · simp only
        split <;> rfl
      · rfl
  refine ⟨hstate, ?_, ?_, ?_, ?_⟩
  · intro hc
    simp [Logout, hc, Client.loggedOut]
  · intro err n hc hcall
    cases hcl : cli.client with
    | none => exact absurd hcl hc
    | some t => simp [Logout, hcl, hcall, Client.loggedOut]
  · intro header resp n result hc hcall hres
    cases hcl : cli.client with
    | none => exact absurd hcl hc
    | some t => simp [Logout, hcl, hcall, hres, Client.loggedOut]
  · rw [hstate]
    simp [Logout, Client.loggedOut]

/-- The four outcomes of the logout request for the client `demoClient`, as an
instance of C12: a refused connection, an undecodable body, a non-zero `result` and
success all end with the token and the transport cleared. -/
theorem Logout_clears_session_scenario :
    (Logout demoEnv demoClient (startNet [Reply.doError])).2.1
        = { demoClient with authToken := "", client := none } ∧
      (Logout demoEnv demoClient (startNet [Reply.doError])).1 = Run.ret () ∧
      (Logout demoEnv demoClient
          (startNet [Reply.response [] (Except.error "invalid character")])).1 = Run.ret () ∧
      (Logout demoEnv demoClient (startNet [Reply.response [] (Except.ok lockedBody)])).1
        = Run.ret () ∧
      (Logout demoEnv demoClient (startNet [Reply.response [] (Except.ok okBody)])).1
        = Run.ret () ∧
      (Logout demoEnv demoClient (startNet [Reply.response [] (Except.ok okBody)])).2.2.trace
        = [Event.acquire { id := 0, capacity := 50 },
           Event.send Caller.baseCall "POST" logoutUrl "T1",
           Event.release { id := 0, capacity := 50 }] :=
  ⟨(Logout_clears_session demoEnv demoClient (startNet [Reply.doError])).1,
    rfl, rfl, rfl, rfl, by decide⟩

/-! ## Two callers that meet the same expired session -/

/-- C15, as stated, fails: a configured count of 5 or of 5000 is not clamped to 20
or to 1000; `NewClient` takes the default 50 for both, as for 50 itself. -/
theorem NewClient_capacity_counterexample :
    (NewClient "https://array:28443" "admin" "B1" "huawei-csi" "5" "huawei-csi/B1" ""
        (startNet [])).2.clientSemaphore.capacity = 50 ∧
      (50 : Int) ≠ 20 ∧
      (NewClient "https://array:28443" "admin" "B1" "huawei-csi" "5000" "huawei-csi/B1" ""
        (startNet [])).2.clientSemaphore.capacity = 50 ∧
      (50 : Int) ≠ 1000 ∧
      (NewClient "https://array:28443" "admin" "B1" "huawei-csi" "50" "huawei-csi/B1" ""
        (startNet [])).2.clientSemaphore.capacity = 50 := by
  decide

/-- C15, amended: for every configured parallel-request count `n`, the capacity
that `NewClient` passes to `NewSemaphore` is `n` when `20 ≤ n ≤ 1000` and the
default 50 otherwise; it is the default 50 as well for every configuration that
`strconv.Atoi` does not accept as a number, the empty one included. -/
theorem NewClient_capacity (url user secretName secretNamespace parallelNum backendID
    accountName : String) (net : Net) :
    (∀ n, Atoi parallelNum = Except.ok n →
      (NewClient url user secretName secretNamespace parallelNum backendID accountName
          net).2.clientSemaphore.capacity
        = if 20 ≤ n ∧ n ≤ 1000 then n else 50) ∧
    ((∃ err, Atoi parallelNum = Except.error err) →
      (NewClient url user secretName secretNamespace parallelNum backendID accountName
          net).2.clientSemaphore.capacity = 50) ∧
    (parallelNum = "" →
      (NewClient url user secretName secretNamespace parallelNum backendID accountName
          net).2.clientSemaphore.capacity = 50) := by
  refine ⟨?_, ?_, ?_⟩
  · intro n hn
    have hlen : parallelNum.length > 0 := by
      rcases parallelNum with ⟨chars⟩
      cases chars with
      | nil => simp [Atoi, digitsValue] at hn
      | cons c cs => simp [String.length]
    simp only [NewClient, parallelCountOf, hlen, if_true, hn, maxParallelCount,
      minParallelCount, defaultParallelCount]
    by_cases h : 20 ≤ n ∧ n ≤ 1000
    · have h2 : ¬(n > 1000 ∨ n < 20) := by omega
      simp [h, h2]
    · have h2 : n > 1000 ∨ n < 20 := by omega
      simp [h, h2]
  · rintro ⟨err, herr⟩
    simp only [NewClient, parallelCountOf, herr]
    split <;> rfl
  · intro hempty
    subst hempty
    rfl

/-- The configurations `999`, `many` and the empty one as instances of amended C15:
the capacities are 999, 50 and 50; and those of 5, 50, 5000, `12x` and `-7` are all
50. -/
theorem NewClient_capacity_scenario :
    ((NewClient "https://array:28443" "admin" "B1" "huawei-csi" "999" "huawei-csi/B1" ""
        (startNet [])).2.clientSemaphore.capacity
      = if (20 : Int) ≤ 999 ∧ (999 : Int) ≤ 1000 then 999 else 50) ∧
    (NewClient "https://array:28443" "admin" "B1" "huawei-csi" "999" "huawei-csi/B1" ""
        (startNet [])).2.clientSemaphore.capacity = 999 ∧
    (NewClient "https://array:28443" "admin" "B1" "huawei-csi" "many" "huawei-csi/B1" ""
        (startNet [])).2.clientSemaphore.capacity = 50 ∧
    (NewClient "https://array:28443" "admin" "B1" "huawei-csi" "" "huawei-csi/B1" ""
        (startNet [])).2.clientSemaphore.capacity = 50 ∧
    parallelCountOf "5" = 50 ∧ parallelCountOf "50" = 50 ∧ parallelCountOf "5000" = 50 ∧
    parallelCountOf "12x" = 50 ∧ parallelCountOf "-7" = 50 :=
  ⟨(NewClient_capacity "https://array:28443" "admin" "B1" "huawei-csi" "999" "huawei-csi/B1"
      "" (startNet [])).1 999 rfl,
    by decide,
    (NewClient_capacity "https://array:28443" "admin" "B1" "huawei-csi" "many" "huawei-csi/B1"
      "" (startNet [])).2.1 ⟨_, rfl⟩,
    (NewClient_capacity "https://array:28443" "admin" "B1" "huawei-csi" "" "huawei-csi/B1"
      "" (startNet [])).2.2 rfl,
    by decide, by decide, by decide, by decide, by decide⟩

/-! ## Which bodies lead to a relogin -/

theorem isSessionExpired_iff (body : JsonObj) :
    isSessionExpired body = true ↔
      (body.get "errorCode" = some (Json.string "1077949069") ∨
        ∃ f, body.get "errorCode" = some (Json.number f) ∧
          (f.toInt64 = 1077949069 ∨ f.toInt64 = 10000003)) := by
  unfold isSessionExpired
  cases h : body.get "errorCode" with
  | none => simp
  | some v =>
    cases v with
    | string c => simp [offLineCode]
    | number f => simp [offLineCodeInt, noAuthenticated]
    | null | bool _ | array _ | object _ => simp

theorem retry_count (env : Env) (cli : Client) (method url : String)
    (data : Option JsonObj) (body : Option JsonObj) (net : Net) :
    List.countP Event.isReLogin (retry env cli method url data body net).2.2.trace
      = List.countP Event.isReLogin net.trace + 1 := by
  have hre := reLogin_count env cli net
  by_cases hok : (reLogin env cli net).1 = Run.ret none
  · rw [retry_snd_of_ok _ _ _ _ _ _ _ hok]
    have h2 := doCall_count env Caller.call (reLogin env cli net).2.1 method url data
      (reLogin env cli net).2.2
    omega
  · rw [retry_snd_of_not_ok _ _ _ _ _ _ _ hok]
    omega

/-- C16, as stated, fails: a body whose `errorCode` is the JSON string `10000003`
is returned to the caller as it is, and `reLogin` is not invoked. -/
theorem call_string_code_counterexample :
    stringCodeBody.get "errorCode" = some (Json.string "10000003") ∧
      (call demoEnv demoClient "GET" "/pools" none
          (startNet [Reply.response [] (Except.ok stringCodeBody)])).1
        = Run.ret (Except.ok ([], stringCodeBody)) ∧
      (call demoEnv demoClient "GET" "/pools" none
          (startNet [Reply.response [] (Except.ok stringCodeBody)])).2.2.trace
        = [Event.acquire { id := 0, capacity := 50 },
           Event.send Caller.call "GET" "/pools" "T1",
           Event.release { id := 0, capacity := 50 }] := by
  refine ⟨rfl, rfl, ?_⟩
  decide

/-- C16, amended: for every successfully decoded first response, `call` takes the
relogin-and-resend path exactly when the body has an `errorCode` that is the JSON
string `1077949069`, or a JSON number whose `int64` value is 1077949069 or 10000003;
every other body is returned to the caller unchanged, with the client as it was and
no invocation of `reLogin`. -/
theorem call_relogin_iff (env : Env) (cli : Client) (method url : String)
    (data : Option JsonObj) (net : Net) (header : Header) (body : JsonObj) (n1 : Net)
    (hfirst : doCall env Caller.call cli method url data net
      = (Run.ret (Except.ok (header, Except.ok body)), n1)) :
    ((body.get "errorCode" = some (Json.string "1077949069") ∨
        ∃ f, body.get "errorCode" = some (Json.number f) ∧
          (f.toInt64 = 1077949069 ∨ f.toInt64 = 10000003)) →
      call env cli method url data net = retry env cli method url data (some body) n1 ∧
        List.countP Event.isReLogin (call env cli method url data net).2.2.trace
          = List.countP Event.isReLogin net.trace + 1) ∧
    (¬(body.get "errorCode" = some (Json.string "1077949069") ∨
        ∃ f, body.get "errorCode" = some (Json.number f) ∧
          (f.toInt64 = 1077949069 ∨ f.toInt64 = 10000003)) →
      call env cli method url data net = (Run.ret (Except.ok (header, body)), cli, n1) ∧
        List.countP Event.isReLogin (call env cli method url data net).2.2.trace
          = List.countP Event.isReLogin net.trace) := by
  have hcount := doCall_count env Caller.call cli method url data net
  rw [hfirst] at hcount
  simp only at hcount
  constructor
  · intro hexp
    have hb := (isSessionExpired_iff body).mpr hexp
    have hc : call env cli method url data net
        = retry env cli method url data (some body) n1 := by
      simp [call, callFirst, hfirst, hb]
    refine ⟨hc, ?_⟩
    rw [hc, retry_count]
    omega
  · intro hexp
    have hb : isSessionExpired body = false := by
      cases h : isSessionExpired body with
      | false => rfl
      | true => exact absurd ((isSessionExpired_iff body).mp h) hexp
    have hc : call env cli method url data net
        = (Run.ret (Except.ok (header, body)), cli, n1) := by
      simp [call, callFirst, hfirst, hb]
    refine ⟨hc, ?_⟩
    rw [hc]
    exact hcount.2

/-- A first response with the numeric session-expired code, as an instance of
amended C16: `call` relogs in and resends. -/
theorem call_relogin_iff_scenario :
    ((expiredBody.get "errorCode" = some (Json.string "1077949069") ∨
        ∃ f, expiredBody.get "errorCode" = some (Json.number f) ∧
          (f.toInt64 = 1077949069 ∨ f.toInt64 = 10000003)) →
      call demoEnv demoClient "GET" "/pools" none (startNet herdScript)
          = retry demoEnv demoClient "GET" "/pools" none (some expiredBody) herdFirstA.2 ∧
        List.countP Event.isReLogin
            (call demoEnv demoClient "GET" "/pools" none (startNet herdScript)).2.2.trace
          = List.countP Event.isReLogin (startNet herdScript).trace + 1) ∧
    (expiredBody.get "errorCode" = some (Json.string "1077949069") ∨
        ∃ f, expiredBody.get "errorCode" = some (Json.number f) ∧
          (f.toInt64 = 1077949069 ∨ f.toInt64 = 10000003)) :=
  ⟨(call_relogin_iff demoEnv demoClient "GET" "/pools" none (startNet herdScript) []
      expiredBody herdFirstA.2 rfl).1,
    Or.inr ⟨Float64.ofInt 1077949069, rfl, Or.inl (by decide)⟩⟩

/-! ## One limiter for every client -/

/-- C18: every `NewClient` replaces the package-level semaphore with a fresh one
sized from its own `parallelNum`.  After a client `c1` and then a client `c2` have
been constructed the package semaphore is the one of `c2`, and a request of any
client, `c1` and `c2` included, acquires and releases that semaphore and no
other. -/
theorem NewClient_shares_semaphore (env : Env)
    (url1 user1 secretName1 secretNamespace1 parallelNum1 backendID1 accountName1 : String)
    (url2 user2 secretName2 secretNamespace2 parallelNum2 backendID2 accountName2 : String)
    (net : Net) (cli : Client) (caller : Caller) (method url : String)
    (data : Option JsonObj) (hreq : env.requestError method url data = none) :
    (NewClient url1 user1 secretName1 secretNamespace1 parallelNum1 backendID1 accountName1
        net).2.clientSemaphore
      = { id := net.allocated, capacity := parallelCountOf parallelNum1 } ∧
    (NewClient url2 user2 secretName2 secretNamespace2 parallelNum2 backendID2 accountName2
        (NewClient url1 user1 secretName1 secretNamespace1 parallelNum1 backendID1
          accountName1 net).2).2.clientSemaphore
      = { id := net.allocated + 1, capacity := parallelCountOf parallelNum2 } ∧
    List.filter Event.isPermit
        (doCall env caller cli method url data
          (NewClient url2 user2 secretName2 secretNamespace2 parallelNum2 backendID2
            accountName2
            (NewClient url1 user1 secretName1 secretNamespace1 parallelNum1 backendID1
              accountName1 net).2).2).2.trace
      = List.filter Event.isPermit net.trace ++
        [Event.acquire { id := net.allocated + 1, capacity := parallelCountOf parallelNum2 },
         Event.release { id := net.allocated + 1, capacity := parallelCountOf parallelNum2 }] := by
  refine ⟨rfl, rfl, ?_⟩
  unfold doCall
  simp only [hreq]
  cases hc : cli.client with
  | none => simp [NewClient, Net.record, List.filter_append, Event.isPermit]
  | some t =>
    simp only
    rcases hr : Net.nextReply (NewClient url2 user2 secretName2 secretNamespace2 parallelNum2
      backendID2 accountName2 (NewClient url1 user1 secretName1 secretNamespace1 parallelNum1
        backendID1 accountName1 net).2).2 with ⟨r, rest⟩
    cases r <;> simp [NewClient, Net.record, List.filter_append, Event.isPermit]

/-- Two clients constructed with the counts 30 and 200, as an instance of C18: a
request of the first client, logged in, goes through the semaphore of capacity
200. -/
theorem NewClient_shares_semaphore_scenario :
    (NewClient "https://a1" "admin" "B1" "huawei-csi" "30" "huawei-csi/B1" ""
        (startNet [])).2.clientSemaphore = { id := 1, capacity := parallelCountOf "30" } ∧
    (NewClient "https://a2" "admin" "B2" "huawei-csi" "200" "huawei-csi/B2" ""
        (NewClient "https://a1" "admin" "B1" "huawei-csi" "30" "huawei-csi/B1" ""
          (startNet [])).2).2.clientSemaphore
      = { id := 1 + 1, capacity := parallelCountOf "200" } ∧
    List.filter Event.isPermit
        (doCall demoEnv Caller.call
          { (NewClient "https://a1" "admin" "B1" "huawei-csi" "30" "huawei-csi/B1" ""
              (startNet [])).1 with authToken := "T1", client := some newHttpClient }
          "GET" "/pools" none
          (NewClient "https://a2" "admin" "B2" "huawei-csi" "200" "huawei-csi/B2" ""
            (NewClient "https://a1" "admin" "B1" "huawei-csi" "30" "huawei-csi/B1" ""
              (startNet [])).2).2).2.trace
      = List.filter Event.isPermit (startNet []).trace ++
        [Event.acquire { id := 1 + 1, capacity := parallelCountOf "200" },
         Event.release { id := 1 + 1, capacity := parallelCountOf "200" }] :=
  NewClient_shares_semaphore demoEnv "https://a1" "admin" "B1" "huawei-csi" "30"
    "huawei-csi/B1" "" "https://a2" "admin" "B2" "huawei-csi" "200" "huawei-csi/B2" ""
    (startNet [])
    { (NewClient "https://a1" "admin" "B1" "huawei-csi" "30" "huawei-csi/B1" ""
        (startNet [])).1 with authToken := "T1", client := some newHttpClient }
    Caller.call "GET" "/pools" none rfl

end FusionClient

namespace CsiBackend

/-! ## The error of the claim-online check -/

/-- C17: `updateBackendCapabilities` decides on the online flag alone.  Whatever
error the claim-online check returns beside the flag, the call does what it does
when the check returns no error: with the flag false the backend is removed and nil
is returned, and with the flag true the sync goes on to the first plugin call. -/
theorem updateBackendCapabilities_ignores_online_error (env : Env) (backend : Backend)
    (sync : Bool) (w : World) (online : Bool) (err : Option GoError)
    (h : env.GetSBCTOnlineStatusByClaim
      (env.MakeMetaWithNamespace env.Namespace backend.Name) = (online, err)) :
    updateBackendCapabilities env backend sync w
        = updateBackendCapabilities
            { env with GetSBCTOnlineStatusByClaim := fun _ => (online, none) }
            backend sync w ∧
      (online = false →
        updateBackendCapabilities env backend sync w
          = (Outcome.returned none, backend,
              RemoveOneBackend backend.Name
                (w.record (Event.GetSBCTOnlineStatusByClaim
                  (env.MakeMetaWithNamespace env.Namespace backend.Name))))) ∧
      (online = true →
        ∃ evs, (updateBackendCapabilities env backend sync w).2.2.trace
          = w.trace ++
            Event.GetSBCTOnlineStatusByClaim
                (env.MakeMetaWithNamespace env.Namespace backend.Name) ::
              Event.UpdateBackendCapabilities backend.Name :: evs) := by
  refine ⟨?_, ?_, ?_⟩
  · cases online <;> simp only [updateBackendCapabilities, h]
  · intro hoff
    subst hoff
    simp only [updateBackendCapabilities, h]
  · intro hon
    subst hon
    cases hB : backend.Plugin.UpdateBackendCapabilities with
    | error e =>
      exact ⟨[], by simp [updateBackendCapabilities, h, hB, World.record]⟩
    | ok v =>
      obtain ⟨Bc, cap⟩ := v
      cases hP : backend.Plugin.UpdatePoolCapabilities
          (backend.Pools.map (fun pool => pool.Name)) with
      | error e =>
        exact ⟨[Event.UpdatePoolCapabilities backend.Name
          (backend.Pools.map (fun pool => pool.Name))],
          by simp [updateBackendCapabilities, h, hB, hP, World.record]⟩
      | ok Pc =>
        refine ⟨[Event.UpdatePoolCapabilities backend.Name
          (backend.Pools.map (fun pool => pool.Name))], ?_⟩
        by_cases hstrict : sync = true ∧ Pc.length < backend.Pools.length
        · simp [updateBackendCapabilities, h, hB, hP, hstrict, World.record]
        · cases hm : updatePoolCapabilitiesByBackend backend Bc Pc with
          | done st =>
            obtain ⟨b1, l⟩ := st
            simp [updateBackendCapabilities, h, hB, hP, hstrict, hm, World.record]
          | panicked st =>
            obtain ⟨b1, l⟩ := st
            simp [updateBackendCapabilities, h, hB, hP, hstrict, hm, World.record]

/-- The sync of `B1` when the claim-online check reports an error beside the flag,
as instances of C17: with the flag false the backend is removed and nil is returned,
and with the flag true the first plugin call is issued. -/
theorem updateBackendCapabilities_ignores_online_error_scenario :
    updateBackendCapabilities erringOfflineEnv scenarioBackend true (startWorld ["B1"])
        = (Outcome.returned none, scenarioBackend,
            RemoveOneBackend scenarioBackend.Name
              ((startWorld ["B1"]).record (Event.GetSBCTOnlineStatusByClaim
                (erringOfflineEnv.MakeMetaWithNamespace erringOfflineEnv.Namespace
                  scenarioBackend.Name)))) ∧
      ∃ evs, (updateBackendCapabilities erringOnlineEnv scenarioBackend true
          (startWorld ["B1"])).2.2.trace
        = (startWorld ["B1"]).trace ++
          Event.GetSBCTOnlineStatusByClaim
              (erringOnlineEnv.MakeMetaWithNamespace erringOnlineEnv.Namespace
                scenarioBackend.Name) ::
            Event.UpdateBackendCapabilities scenarioBackend.Name :: evs :=
  ⟨(updateBackendCapabilities_ignores_online_error erringOfflineEnv scenarioBackend true
      (startWorld ["B1"]) false (some "claim not found") rfl).2.1 rfl,
    (updateBackendCapabilities_ignores_online_error erringOnlineEnv scenarioBackend true
      (startWorld ["B1"]) true (some "stale cache") rfl).2.2 rfl⟩

end CsiBackend
